import Mathlib

set_option maxRecDepth 8000

namespace IservStac

/-! Shallow embedding of generate.py: the ISERV STAC catalog generator.
The script walks an object-store listing, builds a year/month/day catalog
tree, normalizes two legacy asset shapes, assembles item documents and
writes them, recording per-record diagnostics on failure. -/

/-- Field values occurring in legacy asset dictionaries and in the
properties mapping of a record: JSON strings, small integer arrays
(for the eo:bands tag) and null. -/
inductive AVal where
  | str (s : String)
  | ints (l : List Int)
  | null
deriving DecidableEq

/-- One legacy or normalized asset: a JSON object with scalar fields,
kept as an association list in insertion order, following Python dict
semantics. -/
abbrev Asset := List (String × AVal)

/-- Exception classes that can escape the per-record loop of the source. -/
inductive Err where
  | keyError
  | valueError
  | readError
  | attributeError
  | nameError
deriving DecidableEq

/-- Association-list lookup: first binding wins, as in a Python dict. -/
def alookup {α : Type} : List (String × α) → String → Option α
  | [], _ => none
  | p :: rest, q => if p.1 = q then some p.2 else alookup rest q

/-- Python dict assignment d[k] = v: replaces the value in place when the
key is present, otherwise appends the binding at the end. -/
def aset {α : Type} (d : List (String × α)) (k : String) (v : α) :
    List (String × α) :=
  if (alookup d k).isSome then d.map (fun p => if p.1 = k then (k, v) else p)
  else d ++ [(k, v)]

/-- Python dict indexing d[k]: a missing key raises KeyError. -/
def aindex {α : Type} (d : List (String × α)) (k : String) : Except Err α :=
  match alookup d k with
  | some v => .ok v
  | none => .error .keyError

/-- Python del d[k]: removes the binding, raising KeyError when absent. -/
def adel {α : Type} (d : List (String × α)) (k : String) :
    Except Err (List (String × α)) :=
  if (alookup d k).isSome then .ok (d.filter (fun p => ¬ p.1 = k))
  else .error .keyError

/-- Conversion applied by Python string interpolation to a field value. -/
def avalText : AVal → String
  | .str s => s
  | .ints l => "[" ++ String.intercalate ", " (l.map toString) ++ "]"
  | .null => "None"

/-- Python str.endswith: a suffix test on the character sequence. -/
def pyEndsWith (s suffix : String) : Bool := suffix.data.isSuffixOf s.data

/-- Key classification of the main loop (source lines 187-193): a key is
skipped when it does not end in .json or when it ends in one of the three
sidecar file names. -/
def skipKey (key : String) : Bool :=
  !pyEndsWith key ".json"
    || pyEndsWith key "catalog.json"
    || pyEndsWith key "iserv.json"
    || pyEndsWith key "product.json"

/-- Character-level split on the slash separator, matching Python
str.split with a single-character separator. -/
def csplit : List Char → List (List Char)
  | [] => [[]]
  | c :: rest =>
    if c = '/' then [] :: csplit rest
    else
      match csplit rest with
      | [] => [[c]]
      | g :: gs => (c :: g) :: gs

/-- Character-level join with the slash separator, matching Python join. -/
def cjoin : List (List Char) → List Char
  | [] => []
  | [p] => p
  | p :: q :: rest => p ++ '/' :: cjoin (q :: rest)

/-- Python key.split on the slash character. -/
def splitSlash (s : String) : List String := (csplit s.data).map String.mk

/-- Python slash join of path components. -/
def joinSlash (ps : List String) : String := String.mk (cjoin (ps.map String.data))

/-- Numeric value of a run of decimal digits. -/
def digitsVal (l : List Char) : Nat :=
  l.foldl (fun n c => n * 10 + (c.toNat - 48)) 0

/-- The %Y field of Python strptime: exactly four decimal digits. -/
def parseYearPart (s : String) : Option Nat :=
  if s.data.length = 4 ∧ s.data.all Char.isDigit = true then some (digitsVal s.data)
  else none

/-- The %m field of Python strptime: one or two decimal digits spelling a
month from 1 to 12. -/
def parseMonthPart (s : String) : Option Nat :=
  if (s.data.length = 1 ∨ s.data.length = 2) ∧ s.data.all Char.isDigit = true
      ∧ 1 ≤ digitsVal s.data ∧ digitsVal s.data ≤ 12 then
    some (digitsVal s.data)
  else none

/-- The %d field of Python strptime: one or two decimal digits spelling a
day from 1 to 31; month-dependent validity is checked separately. -/
def parseDayPart (s : String) : Option Nat :=
  if (s.data.length = 1 ∨ s.data.length = 2) ∧ s.data.all Char.isDigit = true
      ∧ 1 ≤ digitsVal s.data ∧ digitsVal s.data ≤ 31 then
    some (digitsVal s.data)
  else none

/-- Gregorian leap-year rule used by the datetime module. -/
def isLeap (y : Nat) : Bool :=
  (y % 4 == 0 && y % 100 != 0) || y % 400 == 0

/-- Length of a month, as validated by the datetime constructor. -/
def daysInMonth (y m : Nat) : Nat :=
  if m = 2 then (if isLeap y then 29 else 28)
  else if m = 4 ∨ m = 6 ∨ m = 9 ∨ m = 11 then 30
  else 31

/-- Python datetime.strptime(s, percent-Y slash percent-m): the whole
string must decompose as a four-digit year, a slash and a valid month,
with the year at least 1. -/
def strptimeYM (s : String) : Option (Nat × Nat) :=
  match splitSlash s with
  | [ys, ms] =>
    match parseYearPart ys, parseMonthPart ms with
    | some y, some m => if 1 ≤ y then some (y, m) else none
    | _, _ => none
  | _ => none

/-- Python datetime.strptime(s, percent-Y slash percent-m slash percent-d),
including the day-of-month validity check of the datetime constructor. -/
def strptimeYMD (s : String) : Option (Nat × Nat × Nat) :=
  match splitSlash s with
  | [ys, ms, ds] =>
    match parseYearPart ys, parseMonthPart ms, parseDayPart ds with
    | some y, some m, some d =>
      if 1 ≤ y ∧ d ≤ daysInMonth y m then some (y, m, d) else none
    | _, _, _ => none
  | _ => none

/-- English month name, as produced by strftime percent-B. -/
def monthName : Nat → String
  | 1 => "January"
  | 2 => "February"
  | 3 => "March"
  | 4 => "April"
  | 5 => "May"
  | 6 => "June"
  | 7 => "July"
  | 8 => "August"
  | 9 => "September"
  | 10 => "October"
  | 11 => "November"
  | 12 => "December"
  | _ => ""

/-- strftime percent-B space percent-Y, the depth-2 catalog description. -/
def fmtBY (ym : Nat × Nat) : String :=
  monthName ym.2 ++ " " ++ toString ym.1

/-- strftime percent-B space unpadded-day comma space percent-Y, the
depth-3 catalog description. -/
def fmtBdY (ymd : Nat × Nat × Nat) : String :=
  monthName ymd.2.1 ++ " " ++ toString ymd.2.2 ++ ", " ++ toString ymd.1

/-- One entry of a links list, as appended by satstac add_link. -/
structure Link where
  rel : String
  href : String
  title : Option String
deriving DecidableEq

/-- A catalog document: identifier, description and its links list. The
static extra fields of the root document (title, license, keywords,
extent, providers, properties) are constants that no claim inspects and
are not carried here. -/
structure Catalog where
  id : String
  description : String
  links : List Link
deriving DecidableEq

/-- satstac add_link: appends one link entry to the links list. -/
def addLinkT (c : Catalog) (rel href : String) (title : Option String) : Catalog :=
  { c with links := c.links ++ [{ rel := rel, href := href, title := title }] }

def SOURCE_BUCKET_NAME : String := "radiant-nasa-iserv"

def root_prefix : String := "https://iserv-stac.s3.amazonaws.com/0.6.1/"

def root_href : String := root_prefix ++ "catalog.json"

/-- Stand-in for the long root-catalog markdown description; its exact
text is never inspected by any claim. -/
def root_description : String := "ISERV root catalog description"

/-- The root catalog after its root and self links are added
(source lines 136-182). -/
def root_catalog : Catalog :=
  addLinkT (addLinkT { id := "ISERV", description := root_description, links := [] }
      "root" root_href none)
    "self" root_href none

/-- The two legacy shapes of the assets field, plus the case of any other
JSON value, for which both isinstance tests of the source are false and
the normalized set stays empty. -/
inductive AssetsVal where
  | dict (m : List (String × Asset))
  | list (l : List Asset)
  | other
deriving DecidableEq

/-- A legacy source record, shaped as described by the external-interface
contract: id, bbox, geometry, properties and assets. -/
structure OldItem where
  id : String
  bbox : AVal
  geometry : AVal
  properties : List (String × AVal)
  assets : AssetsVal
deriving DecidableEq

/-- An assembled item document. -/
structure ItemDoc where
  id : String
  bbox : AVal
  geometry : AVal
  datetime : AVal
  assets : List (String × Asset)
  links : List Link
deriving DecidableEq

/-- Observable operator output: a printed line, or the printed redacted
record, which repeats every field of the source record except geometry. -/
inductive Out where
  | line (s : String)
  | redactedRec (id : String) (bbox : AVal) (properties : List (String × AVal))
      (assets : AssetsVal)
deriving DecidableEq

/-- The redacted copy of a record printed by the except handler after
del geometry. -/
def redactOut (r : OldItem) : Out :=
  .redactedRec r.id r.bbox r.properties r.assets

/-- The object store boundary: reading a source record by key (none for a
read or JSON-parse failure) and the success of a target write. -/
structure Store where
  read : String → Option OldItem
  writeOk : String → Bool

/-- The in-memory state of one run: the catalog map in insertion order,
the binding of the old_item variable (it survives loop iterations), the
printed output and the successfully written item documents. -/
structure St where
  catalogs : List (String × Catalog)
  oldItemVar : Option OldItem
  out : List Out
  written : List (String × ItemDoc)
deriving DecidableEq

instance : Inhabited Catalog := ⟨{ id := "", description := "", links := [] }⟩

instance : Inhabited St := ⟨{ catalogs := [], oldItemVar := none, out := [], written := [] }⟩

/-- The initial state: only the root catalog exists (source line 184). -/
def initSt : St :=
  { catalogs := [("root", root_catalog)], oldItemVar := none, out := [], written := [] }

/-- Mapping-shape section for the RGB Tif role (source lines 247-254). -/
def normTiffSection (assets : List (String × Asset)) ( source_prefix : String) :
    Except Err Asset := do
  let original_tiff ← aindex assets "RGB Tif"
  let h ← aindex original_tiff "href"
  let original_tiff := aset original_tiff "href" (.str ( source_prefix ++ "/" ++ avalText h))
  let original_tiff := aset original_tiff "title" (.str "RGB GeoTIFF")
  let original_tiff := aset original_tiff "type" (.str "image/vnd.stac.geotiff")
  let original_tiff := aset original_tiff "eo:bands" (.ints [0, 1, 2])
  adel original_tiff "name"

/-- Transformation of an optional tiff world file asset
(source lines 256-269). -/
def worldFileTransform (a : Asset) ( source_prefix : String) : Except Err Asset := do
  let h ← aindex a "href"
  let a := aset a "href" (.str ( source_prefix ++ "/" ++ avalText h))
  let a := aset a "title" (.str "RGB GeoTIFF world file")
  let a := aset a "type" (.str "text/plain")
  adel a "name"

/-- Mapping-shape section for the RGB JPEG role (source lines 271-277):
the title is taken from the legacy name field. -/
def normJpegSection (assets : List (String × Asset)) ( source_prefix : String) :
    Except Err Asset := do
  let jpeg ← aindex assets "RGB JPEG"
  let h ← aindex jpeg "href"
  let jpeg := aset jpeg "href" (.str ( source_prefix ++ "/" ++ avalText h))
  let n ← aindex jpeg "name"
  let jpeg := aset jpeg "title" n
  let jpeg := aset jpeg "type" (.str "image/jpeg")
  adel jpeg "name"

/-- Mapping-shape section for the jpg overview role (source lines 279-287). -/
def normOverviewSection (assets : List (String × Asset)) ( source_prefix : String) :
    Except Err Asset := do
  let jpeg_overviews ← aindex assets "jpg overview"
  let h ← aindex jpeg_overviews "href"
  let jpeg_overviews := aset jpeg_overviews "href" (.str ( source_prefix ++ "/" ++ avalText h))
  let jpeg_overviews := aset jpeg_overviews "title" (.str "JPEG overviews")
  let jpeg_overviews := aset jpeg_overviews "type" (.str "image/tiff")
  adel jpeg_overviews "name"

/-- Mapping-shape section for the jpeg world file role
(source lines 289-295). -/
def normJpegWorldSection (assets : List (String × Asset)) ( source_prefix : String) :
    Except Err Asset := do
  let jpeg_world ← aindex assets "jpeg world file"
  let h ← aindex jpeg_world "href"
  let jpeg_world := aset jpeg_world "href" (.str ( source_prefix ++ "/" ++ avalText h))
  let jpeg_world := aset jpeg_world "title" (.str "JPEG world file")
  let jpeg_world := aset jpeg_world "type" (.str "text/plain")
  adel jpeg_world "name"

/-- Mapping-shape section for the thumbnail role (source lines 297-303). -/
def normThumbSection (assets : List (String × Asset)) ( source_prefix : String) :
    Except Err Asset := do
  let thumbnail ← aindex assets "thumbnail"
  let h ← aindex thumbnail "href"
  let thumbnail := aset thumbnail "href" (.str ( source_prefix ++ "/" ++ avalText h))
  let thumbnail := aset thumbnail "title" (.str "Thumbnail")
  let thumbnail := aset thumbnail "type" (.str "image/png")
  adel thumbnail "name"

/-- Mapping-shape section for the cog role (source lines 305-312): the
title comes from the legacy name, and both format and name are deleted. -/
def normVisualSection (assets : List (String × Asset)) ( source_prefix : String) :
    Except Err Asset := do
  let visual ← aindex assets "cog"
  let h ← aindex visual "href"
  let visual := aset visual "href" (.str ( source_prefix ++ "/" ++ avalText h))
  let n ← aindex visual "name"
  let visual := aset visual "title" n
  let visual := aset visual "type" (.str "image/vnd.stac.geotiff; cloud-optimized=true")
  let visual ← adel visual "format"
  adel visual "name"

/-- Mapping-shape normalization (source lines 246-312), assembling the
canonical asset map in source order. -/
def normMapping (assets : List (String × Asset)) ( source_prefix : String) :
    Except Err (List (String × Asset)) := do
  let t ← normTiffSection assets source_prefix
  let new_assets := aset ([] : List (String × Asset)) "original TIFF" t
  let new_assets ←
    match alookup assets "tiff world file" with
    | none => pure new_assets
    | some a => do
      let w ← worldFileTransform a source_prefix
      pure (aset new_assets "original TIFF world file" w)
  let j ← normJpegSection assets source_prefix
  let new_assets := aset new_assets "JPEG" j
  let o ← normOverviewSection assets source_prefix
  let new_assets := aset new_assets "JPEG overviews" o
  let w ← normJpegWorldSection assets source_prefix
  let new_assets := aset new_assets "JPEG world file" w
  let th ← normThumbSection assets source_prefix
  let new_assets := aset new_assets "thumbnail" th
  let v ← normVisualSection assets source_prefix
  pure (aset new_assets "visual" v)

/-- One iteration of the list-shape loop (source lines 315-356): the six
suffix tests run in order, each inserting a freshly built asset; an entry
whose href matches no suffix contributes nothing. A missing href raises
KeyError, and a non-string href raises AttributeError at the first
endswith call. -/
def listEntryStep ( source_prefix : String) (new_assets : List (String × Asset))
    (asset : Asset) : Except Err (List (String × Asset)) := do
  let h ← aindex asset "href"
  let href ← (match h with
    | .str s => Except.ok s
    | _ => Except.error Err.attributeError)
  let n := new_assets
  let n := if pyEndsWith href ".TFW" then
      aset n "original TIFF world file"
        [("href", .str ( source_prefix ++ "/" ++ href)),
         ("title", .str "RGB GeoTIFF world file"), ("type", .str "text/plain")]
    else n
  let n := if pyEndsWith href ".JPG" then
      aset n "JPEG"
        [("href", .str ( source_prefix ++ "/" ++ href)),
         ("title", .str "RGB JPEG"), ("type", .str "image/jpeg")]
    else n
  let n := if pyEndsWith href ".png" then
      aset n "thumbnail"
        [("href", .str ( source_prefix ++ "/" ++ href)),
         ("title", .str "Thumbnail"), ("type", .str "image/png")]
    else n
  let n := if pyEndsWith href ".JGW" then
      aset n "JPEG world file"
        [("href", .str ( source_prefix ++ "/" ++ href)),
         ("title", .str "JPEG world file"), ("type", .str "text/plain")]
    else n
  let n := if pyEndsWith href ".JPG.ovr" then
      aset n "JPEG overviews"
        [("href", .str ( source_prefix ++ "/" ++ href)),
         ("title", .str "JPEG overviews"), ("type", .str "image/tiff")]
    else n
  let n := if pyEndsWith href ".TIF" then
      aset n "visual"
        [("href", .str ( source_prefix ++ "/" ++ href)),
         ("title", .str "3-Band RGB GeoTIFF"),
         ("type", .str "image/vnd.stac.geotiff; cloud-optimized=true")]
    else n
  pure n

/-- List-shape normalization (source lines 314-356). -/
def normList (assets : List Asset) ( source_prefix : String) :
    Except Err (List (String × Asset)) :=
  assets.foldlM (listEntryStep source_prefix) []

/-- Dispatch on the runtime shape of the assets value
(source lines 246, 314): any other shape leaves new_assets empty. -/
def normalizeAssets (assets : AssetsVal) ( source_prefix : String) :
    Except Err (List (String × Asset)) :=
  match assets with
  | .dict m => normMapping m source_prefix
  | .list l => normList l source_prefix
  | .other => .ok []

/-- The absolute source URL prefix of a record: the fixed bucket URL plus
the slash join of all path components but the last (source lines 240-242). -/
def sourcePrefixOf (key : String) : String :=
  "https://" ++ SOURCE_BUCKET_NAME ++ ".s3.amazonaws.com/"
    ++ joinSlash (splitSlash key).dropLast

/-- Datetime resolution (source lines 365-367): properties.get of datetime
with properties.get of start as the default; when both are absent the
result is None, with no error raised. -/
def resolveDatetime (props : List (String × AVal)) : AVal :=
  match alookup props "datetime" with
  | some v => v
  | none =>
    match alookup props "start" with
    | some v => v
    | none => .null

/-- Item assembly plus its three links (source lines 358-376). -/
def mkItem (old : OldItem) (new_assets : List (String × Asset))
    (catalog_id : String) : ItemDoc :=
  { id := old.id, bbox := old.bbox, geometry := old.geometry,
    datetime := resolveDatetime old.properties,
    assets := new_assets,
    links := [{ rel := "root", href := root_href, title := none },
              { rel := "parent", href := "../catalog.json", title := none },
              { rel := "self",
                href := root_prefix ++ catalog_id ++ "/" ++ old.id ++ ".json",
                title := none }] }

/-- In-place replacement of the value stored under an existing key of the
catalog map, modelling mutation of a shared node object. -/
def mapUpdate (cs : List (String × Catalog)) (k : String) (v : Catalog) :
    List (String × Catalog) :=
  cs.map (fun p => if p.1 = k then (k, v) else p)

/-- One iteration of the catalog-tree loop (source lines 197-232): look up
the slash-joined prefix; when absent, create the node with its root,
collection and parent links, give the parent node a child link holding
only the last component, and append the node to the map. The descriptive
timestamp parse can raise, before any mutation happens. -/
def treeDescriptive (parents : List String) (catalog_id : String) : Except Err String :=
  if parents.length = 0 then Except.ok catalog_id
  else if parents.length = 1 then
    match strptimeYM catalog_id with
    | some ym => Except.ok (fmtBY ym)
    | none => Except.error Err.valueError
  else if parents.length = 2 then
    match strptimeYMD catalog_id with
    | some ymd => Except.ok (fmtBdY ymd)
    | none => Except.error Err.valueError
  else Except.error Err.nameError

def treeStep (cs : List (String × Catalog)) (parents : List String)
    (component : String) : Except Err (List (String × Catalog)) :=
  let catalog_id := joinSlash (parents ++ [component])
  match alookup cs catalog_id with
  | some _ => .ok cs
  | none => do
    let parent_id := if parents.isEmpty then "root" else joinSlash parents
    let parent ← aindex cs parent_id
    let descriptive ← treeDescriptive parents catalog_id
    let catalog_href := component ++ "/catalog.json"
    let c : Catalog :=
      { id := catalog_id, description := "Imagery from " ++ descriptive, links := [] }
    let c := addLinkT c "root" root_href none
    let c := addLinkT c "collection" root_href none
    let c := addLinkT c "parent" "../catalog.json" none
    let cs := mapUpdate cs parent_id (addLinkT parent "child" catalog_href none)
    Except.ok (cs ++ [(catalog_id, c)])

/-- The catalog-tree loop over the first three path components; an error
aborts with the map as mutated so far (a failing iteration itself mutates
nothing). Returns the map and the final parents list. -/
def buildTreeGo (cs : List (String × Catalog)) (parents : List String) :
    List String → Except (Err × List (String × Catalog)) (List (String × Catalog) × List String)
  | [] => .ok (cs, parents)
  | c :: rest =>
    match treeStep cs parents c with
    | .error e => .error (e, cs)
    | .ok cs' => buildTreeGo cs' (parents ++ [c]) rest

def buildTree (cs : List (String × Catalog)) (comps : List String) :
    Except (Err × List (String × Catalog)) (List (String × Catalog) × List String) :=
  buildTreeGo cs [] comps

/-- Registration of the item link on the owning node
(source line 384): append an item link, with the item id as title, to the
node stored under the deepest prefix. -/
def addItemLink (cs : List (String × Catalog)) (cid href title : String) :
    List (String × Catalog) :=
  cs.map (fun p => if p.1 = cid then (p.1, addLinkT p.2 "item" href (some title)) else p)

/-- Processing of one listed key (source lines 186-389): classification,
tree building (outside the try block: its date-parse failures abort with
no diagnostics), then the guarded read-normalize-assemble-write sequence.
The except handler prints key.key and the geometry-stripped record; after
the output-key rebinding of line 378 the loop variable holds a plain
string, so the handler itself raises AttributeError and prints nothing,
and when the read failed the old_item binding is stale (the previous
record) or unbound (NameError). -/
def step (store : Store) (st : St) (key : String) : Except (Err × St) St :=
  if skipKey key then .ok st
  else
    match buildTree st.catalogs ((splitSlash key).take 3) with
    | .error (e, cs) => .error (e, { st with catalogs := cs })
    | .ok (cs, parents) =>
      let catalog_id := joinSlash parents
      match store.read key with
      | none =>
        (match st.oldItemVar with
         | none =>
           .error (.nameError, { st with catalogs := cs, out := st.out ++ [.line key] })
         | some prev =>
           let st' := { st with catalogs := cs, out := st.out ++ [.line key, redactOut prev] }
           .error (.readError, st'))
      | some old_item =>
        match normalizeAssets old_item.assets (sourcePrefixOf key) with
        | .error e =>
          let st' := { st with catalogs := cs, oldItemVar := some old_item, out := st.out ++ [.line key, redactOut old_item] }
          .error (e, st')
        | .ok new_assets =>
          let item := mkItem old_item new_assets catalog_id
          let item_href := old_item.id ++ ".json"
          let outKey := "0.6.1/" ++ catalog_id ++ "/" ++ item_href
          let out := st.out ++ [.line outKey]
          if store.writeOk outKey then
            .ok { catalogs := addItemLink cs catalog_id item_href old_item.id,
                  oldItemVar := some old_item,
                  out := out,
                  written := st.written ++ [(outKey, item)] }
          else
            .error (.attributeError,
              { st with catalogs := cs, oldItemVar := some old_item, out := out })

/-- The main loop from a given state, failing fast at the first error. -/
def runFrom (store : Store) (st : St) (keys : List String) : Except (Err × St) St :=
  keys.foldlM (step store) st

/-- A whole run over a listing, from the initial single-root state. -/
def run (store : Store) (keys : List String) : Except (Err × St) St :=
  runFrom store initSt keys

end IservStac

namespace IservStac

/-! Basic lemmas about the dict model. -/

theorem alookup_append {α : Type} (d1 d2 : List (String × α)) (q : String) :
    alookup (d1 ++ d2) q =
      (match alookup d1 q with
       | some v => some v
       | none => alookup d2 q) := by
  induction d1 with
  | nil => simp [alookup]
  | cons p rest ih =>
    by_cases hk : p.1 = q
    · simp [alookup, hk]
    · simp [alookup, hk, ih]

theorem alookup_map_replace {α : Type} (d : List (String × α)) (k q : String) (v : α) :
    alookup (d.map (fun p => if p.1 = k then (k, v) else p)) q =
      if q = k then (alookup d k).map (fun _ => v) else alookup d q := by
  induction d with
  | nil => simp [alookup]
  | cons p rest ih =>
    by_cases h1 : p.1 = k
    · by_cases h2 : q = k
      · subst h2; simp [alookup, h1, ih, apply_ite Prod.fst, apply_ite Prod.snd]
      · have h4 : ¬ k = q := fun hh => h2 hh.symm
        have h5 : ¬ p.1 = q := fun hh => h2 (h1.symm.trans hh).symm
        simp [alookup, h1, ih, h2, h4, h5, apply_ite Prod.fst, apply_ite Prod.snd]
    · by_cases h2 : q = k
      · subst h2
        simp [alookup, h1, ih, apply_ite Prod.fst, apply_ite Prod.snd]
      · simp [alookup, h1, ih, h2, apply_ite Prod.fst, apply_ite Prod.snd]

theorem alookup_aset_self {α : Type} (d : List (String × α)) (k : String) (v : α) :
    alookup (aset d k v) k = some v := by
  unfold aset
  by_cases h : (alookup d k).isSome
  · rw [if_pos h, alookup_map_replace, if_pos rfl]
    obtain ⟨w, hw⟩ := Option.isSome_iff_exists.mp h
    simp [hw]
  · rw [if_neg h, alookup_append]
    rw [Option.not_isSome_iff_eq_none] at h
    simp [h, alookup]

theorem alookup_aset_ne {α : Type} (d : List (String × α)) (k q : String) (v : α)
    (h : q ≠ k) : alookup (aset d k v) q = alookup d q := by
  unfold aset
  by_cases hs : (alookup d k).isSome
  · rw [if_pos hs, alookup_map_replace, if_neg h]
  · rw [if_neg hs, alookup_append]
    cases hq : alookup d q with
    | some v1 => rfl
    | none => simp [alookup, Ne.symm h]

theorem alookup_erase {α : Type} (d : List (String × α)) (k q : String) :
    alookup (d.filter (fun p => ¬ p.1 = k)) q =
      if q = k then none else alookup d q := by
  induction d with
  | nil => simp [alookup]
  | cons p rest ih =>
    simp only [decide_not] at ih ⊢
    by_cases h1 : p.1 = k
    · by_cases h2 : q = k
      · subst h2; simp [List.filter_cons, alookup, h1, ih]
      · have h5 : ¬ p.1 = q := fun hh => h2 (h1.symm.trans hh).symm
        have h4 : ¬ k = q := fun hh => h2 hh.symm
        simp [List.filter_cons, alookup, h1, h2, h4, h5, ih]
    · by_cases h2 : p.1 = q
      · have h3 : ¬ q = k := fun hh => h1 (h2.trans hh)
        simp [List.filter_cons, alookup, h1, h2, h3]
      · simp [List.filter_cons, alookup, h1, h2, ih]

theorem adel_ok {α : Type} (d : List (String × α)) (k : String)
    (h : (alookup d k).isSome = true) :
    adel d k = .ok (d.filter (fun p => ¬ p.1 = k)) := by
  unfold adel
  rw [if_pos h]

theorem adel_lookup {α : Type} (d d' : List (String × α)) (k : String)
    (h : adel d k = .ok d') (q : String) :
    alookup d' q = if q = k then none else alookup d q := by
  unfold adel at h
  by_cases hs : (alookup d k).isSome
  · rw [if_pos hs] at h
    cases h
    exact alookup_erase d k q
  · rw [if_neg hs] at h
    cases h

theorem aindex_ok {α : Type} (d : List (String × α)) (k : String) (v : α)
    (h : alookup d k = some v) : aindex d k = .ok v := by
  unfold aindex
  rw [h]

theorem aindex_err {α : Type} (d : List (String × α)) (k : String)
    (h : alookup d k = none) : aindex d k = .error Err.keyError := by
  unfold aindex
  rw [h]

theorem ok_bind {α β : Type} (a : α) (f : α → Except Err β) :
    (Except.ok a >>= f) = f a := rfl

theorem error_bind {α β : Type} (e : Err) (f : α → Except Err β) :
    ((Except.error e : Except Err α) >>= f) = .error e := rfl

end IservStac

namespace IservStac

/-! Inversion and construction lemmas for the asset normalizer. -/

theorem bind_ok_extract {ε α β : Type} (m : Except ε α) (k : α → Except ε β) (b : β)
    (h : (m >>= k) = .ok b) : ∃ a, m = .ok a ∧ k a = .ok b := by
  cases m with
  | error e => exact absurd h (by simp [Bind.bind, Except.bind])
  | ok a => exact ⟨a, rfl, h⟩

theorem aindex_inv {α : Type} (d : List (String × α)) (k : String) (v : α)
    (h : aindex d k = .ok v) : alookup d k = some v := by
  unfold aindex at h
  cases hl : alookup d k with
  | none => rw [hl] at h; cases h
  | some w => rw [hl] at h; cases h; rfl

theorem adel_inv {α : Type} (d d' : List (String × α)) (k : String)
    (h : adel d k = .ok d') : d' = d.filter (fun p => ¬ p.1 = k) := by
  unfold adel at h
  by_cases hs : (alookup d k).isSome
  · rw [if_pos hs] at h; cases h; rfl
  · rw [if_neg hs] at h; cases h

/-- The canonical output keys of mapping-shape normalization and the
legacy role key that feeds each of them. -/
def legacyRoleOf : String → String
  | "original TIFF" => "RGB Tif"
  | "original TIFF world file" => "tiff world file"
  | "JPEG" => "RGB JPEG"
  | "JPEG overviews" => "jpg overview"
  | "JPEG world file" => "jpeg world file"
  | "thumbnail" => "thumbnail"
  | "visual" => "cog"
  | _ => ""

/-- The fixed media type of each canonical output key. -/
def mediaTypeOf : String → String
  | "original TIFF" => "image/vnd.stac.geotiff"
  | "original TIFF world file" => "text/plain"
  | "JPEG" => "image/jpeg"
  | "JPEG overviews" => "image/tiff"
  | "JPEG world file" => "text/plain"
  | "thumbnail" => "image/png"
  | "visual" => "image/vnd.stac.geotiff; cloud-optimized=true"
  | _ => ""

/-- Canonical keys whose title is copied from the legacy name field. -/
def titleFromName (canon : String) : Bool :=
  canon == "JPEG" || canon == "visual"

/-- Fixed titles of the remaining canonical keys. -/
def constTitleOf : String → String
  | "original TIFF" => "RGB GeoTIFF"
  | "original TIFF world file" => "RGB GeoTIFF world file"
  | "JPEG overviews" => "JPEG overviews"
  | "JPEG world file" => "JPEG world file"
  | "thumbnail" => "Thumbnail"
  | _ => ""

/-- The record of facts that hold of one normalized mapping-shape asset:
the legacy source asset exists, the href is the source prefix, a slash and
the legacy href text, the title comes from the fixed table or the legacy
name, the media type comes from the fixed table, the legacy name binding
is gone, and for the visual asset the format binding is gone as well. -/
def NormalizedAssetSpec (assets : List (String × Asset)) (p : String)
    (canon : String) (out : Asset) : Prop :=
  ∃ orig h0, alookup assets (legacyRoleOf canon) = some orig
    ∧ alookup orig "href" = some h0
    ∧ alookup out "href" = some (.str (p ++ "/" ++ avalText h0))
    ∧ alookup out "type" = some (.str (mediaTypeOf canon))
    ∧ (titleFromName canon = true → ∃ n, alookup orig "name" = some n ∧ alookup out "title" = some n)
    ∧ (titleFromName canon = false → alookup out "title" = some (.str (constTitleOf canon)))
    ∧ alookup out "name" = none
    ∧ (canon = "visual" → alookup out "format" = none)

theorem normTiffSection_inv (assets : List (String × Asset)) (p : String) (t : Asset)
    (h : normTiffSection assets p = .ok t) :
    NormalizedAssetSpec assets p "original TIFF" t
      ∧ alookup t "eo:bands" = some (.ints [0, 1, 2]) := by
  unfold normTiffSection at h
  obtain ⟨a, ha, h⟩ := bind_ok_extract _ _ _ h
  obtain ⟨h0, hh0, h⟩ := bind_ok_extract _ _ _ h
  have ha' := aindex_inv _ _ _ ha
  have hh0' := aindex_inv _ _ _ hh0
  have ht := adel_inv _ _ _ h
  subst ht
  refine ⟨⟨a, h0, ha', hh0', ?_, ?_, ?_, ?_, ?_, ?_⟩, ?_⟩
  · rw [alookup_erase, if_neg (by decide), alookup_aset_ne _ _ _ _ (by decide),
      alookup_aset_ne _ _ _ _ (by decide), alookup_aset_ne _ _ _ _ (by decide),
      alookup_aset_self]
  · rw [alookup_erase, if_neg (by decide), alookup_aset_ne _ _ _ _ (by decide),
      alookup_aset_self]
    rfl
  · intro hc; exact absurd hc (by decide)
  · intro _
    rw [alookup_erase, if_neg (by decide), alookup_aset_ne _ _ _ _ (by decide),
      alookup_aset_ne _ _ _ _ (by decide), alookup_aset_self]
    rfl
  · rw [alookup_erase, if_pos rfl]
  · intro hc; exact absurd hc (by decide)
  · rw [alookup_erase, if_neg (by decide), alookup_aset_self]

theorem worldFileTransform_inv (p : String) (a tw : Asset)
    (h : worldFileTransform a p = .ok tw) :
    ∃ h0, alookup a "href" = some h0
      ∧ alookup tw "href" = some (.str (p ++ "/" ++ avalText h0))
      ∧ alookup tw "title" = some (.str "RGB GeoTIFF world file")
      ∧ alookup tw "type" = some (.str "text/plain")
      ∧ alookup tw "name" = none := by
  unfold worldFileTransform at h
  obtain ⟨h0, hh0, h⟩ := bind_ok_extract _ _ _ h
  have hh0' := aindex_inv _ _ _ hh0
  have ht := adel_inv _ _ _ h
  subst ht
  refine ⟨h0, hh0', ?_, ?_, ?_, ?_⟩
  · rw [alookup_erase, if_neg (by decide), alookup_aset_ne _ _ _ _ (by decide),
      alookup_aset_ne _ _ _ _ (by decide), alookup_aset_self]
  · rw [alookup_erase, if_neg (by decide), alookup_aset_ne _ _ _ _ (by decide),
      alookup_aset_self]
  · rw [alookup_erase, if_neg (by decide), alookup_aset_self]
  · rw [alookup_erase, if_pos rfl]

theorem normJpegSection_inv (assets : List (String × Asset)) (p : String) (j : Asset)
    (h : normJpegSection assets p = .ok j) :
    NormalizedAssetSpec assets p "JPEG" j := by
  unfold normJpegSection at h
  obtain ⟨a, ha, h⟩ := bind_ok_extract _ _ _ h
  obtain ⟨h0, hh0, h⟩ := bind_ok_extract _ _ _ h
  obtain ⟨n, hn, h⟩ := bind_ok_extract _ _ _ h
  have ha' := aindex_inv _ _ _ ha
  have hh0' := aindex_inv _ _ _ hh0
  have hn' := aindex_inv _ _ _ hn
  rw [alookup_aset_ne _ _ _ _ (by decide)] at hn'
  have ht := adel_inv _ _ _ h
  subst ht
  refine ⟨a, h0, ha', hh0', ?_, ?_, ?_, ?_, ?_, ?_⟩
  · rw [alookup_erase, if_neg (by decide), alookup_aset_ne _ _ _ _ (by decide),
      alookup_aset_ne _ _ _ _ (by decide), alookup_aset_self]
  · rw [alookup_erase, if_neg (by decide), alookup_aset_self]
    rfl
  · intro _
    refine ⟨n, hn', ?_⟩
    rw [alookup_erase, if_neg (by decide), alookup_aset_ne _ _ _ _ (by decide),
      alookup_aset_self]
  · intro hc; exact absurd hc (by decide)
  · rw [alookup_erase, if_pos rfl]
  · intro hc; exact absurd hc (by decide)

theorem normOverviewSection_inv (assets : List (String × Asset)) (p : String) (o : Asset)
    (h : normOverviewSection assets p = .ok o) :
    NormalizedAssetSpec assets p "JPEG overviews" o := by
  unfold normOverviewSection at h
  obtain ⟨a, ha, h⟩ := bind_ok_extract _ _ _ h
  obtain ⟨h0, hh0, h⟩ := bind_ok_extract _ _ _ h
  have ha' := aindex_inv _ _ _ ha
  have hh0' := aindex_inv _ _ _ hh0
  have ht := adel_inv _ _ _ h
  subst ht
  refine ⟨a, h0, ha', hh0', ?_, ?_, ?_, ?_, ?_, ?_⟩
  · rw [alookup_erase, if_neg (by decide), alookup_aset_ne _ _ _ _ (by decide),
      alookup_aset_ne _ _ _ _ (by decide), alookup_aset_self]
  · rw [alookup_erase, if_neg (by decide), alookup_aset_self]
    rfl
  · intro hc; exact absurd hc (by decide)
  · intro _
    rw [alookup_erase, if_neg (by decide), alookup_aset_ne _ _ _ _ (by decide),
      alookup_aset_self]
    rfl
  · rw [alookup_erase, if_pos rfl]
  · intro hc; exact absurd hc (by decide)

theorem normJpegWorldSection_inv (assets : List (String × Asset)) (p : String) (w : Asset)
    (h : normJpegWorldSection assets p = .ok w) :
    NormalizedAssetSpec assets p "JPEG world file" w := by
  unfold normJpegWorldSection at h
  obtain ⟨a, ha, h⟩ := bind_ok_extract _ _ _ h
  obtain ⟨h0, hh0, h⟩ := bind_ok_extract _ _ _ h
  have ha' := aindex_inv _ _ _ ha
  have hh0' := aindex_inv _ _ _ hh0
  have ht := adel_inv _ _ _ h
  subst ht
  refine ⟨a, h0, ha', hh0', ?_, ?_, ?_, ?_, ?_, ?_⟩
  · rw [alookup_erase, if_neg (by decide), alookup_aset_ne _ _ _ _ (by decide),
      alookup_aset_ne _ _ _ _ (by decide), alookup_aset_self]
  · rw [alookup_erase, if_neg (by decide), alookup_aset_self]
    rfl
  · intro hc; exact absurd hc (by decide)
  · intro _
    rw [alookup_erase, if_neg (by decide), alookup_aset_ne _ _ _ _ (by decide),
      alookup_aset_self]
    rfl
  · rw [alookup_erase, if_pos rfl]
  · intro hc; exact absurd hc (by decide)

theorem normThumbSection_inv (assets : List (String × Asset)) (p : String) (th : Asset)
    (h : normThumbSection assets p = .ok th) :
    NormalizedAssetSpec assets p "thumbnail" th := by
  unfold normThumbSection at h
  obtain ⟨a, ha, h⟩ := bind_ok_extract _ _ _ h
  obtain ⟨h0, hh0, h⟩ := bind_ok_extract _ _ _ h
  have ha' := aindex_inv _ _ _ ha
  have hh0' := aindex_inv _ _ _ hh0
  have ht := adel_inv _ _ _ h
  subst ht
  refine ⟨a, h0, ha', hh0', ?_, ?_, ?_, ?_, ?_, ?_⟩
  · rw [alookup_erase, if_neg (by decide), alookup_aset_ne _ _ _ _ (by decide),
      alookup_aset_ne _ _ _ _ (by decide), alookup_aset_self]
  · rw [alookup_erase, if_neg (by decide), alookup_aset_self]
    rfl
  · intro hc; exact absurd hc (by decide)
  · intro _
    rw [alookup_erase, if_neg (by decide), alookup_aset_ne _ _ _ _ (by decide),
      alookup_aset_self]
    rfl
  · rw [alookup_erase, if_pos rfl]
  · intro hc; exact absurd hc (by decide)

theorem normVisualSection_inv (assets : List (String × Asset)) (p : String) (v : Asset)
    (h : normVisualSection assets p = .ok v) :
    NormalizedAssetSpec assets p "visual" v := by
  unfold normVisualSection at h
  obtain ⟨a, ha, h⟩ := bind_ok_extract _ _ _ h
  obtain ⟨h0, hh0, h⟩ := bind_ok_extract _ _ _ h
  obtain ⟨n, hn, h⟩ := bind_ok_extract _ _ _ h
  obtain ⟨v1, hv1, h⟩ := bind_ok_extract _ _ _ h
  have ha' := aindex_inv _ _ _ ha
  have hh0' := aindex_inv _ _ _ hh0
  have hn' := aindex_inv _ _ _ hn
  rw [alookup_aset_ne _ _ _ _ (by decide)] at hn'
  have hv1' := adel_inv _ _ _ hv1
  subst hv1'
  have ht := adel_inv _ _ _ h
  subst ht
  refine ⟨a, h0, ha', hh0', ?_, ?_, ?_, ?_, ?_, ?_⟩
  · rw [alookup_erase, if_neg (by decide), alookup_erase, if_neg (by decide),
      alookup_aset_ne _ _ _ _ (by decide), alookup_aset_ne _ _ _ _ (by decide),
      alookup_aset_self]
  · rw [alookup_erase, if_neg (by decide), alookup_erase, if_neg (by decide),
      alookup_aset_self]
    rfl
  · intro _
    refine ⟨n, hn', ?_⟩
    rw [alookup_erase, if_neg (by decide), alookup_erase, if_neg (by decide),
      alookup_aset_ne _ _ _ _ (by decide), alookup_aset_self]
  · intro hc; exact absurd hc (by decide)
  · rw [alookup_erase, if_pos rfl]
  · intro _
    rw [alookup_erase, if_neg (by decide), alookup_erase, if_pos rfl]

end IservStac

namespace IservStac

/-! Construction lemmas: each mapping-shape section succeeds when its role
is present and the touched fields exist. -/

theorem normTiffSection_err (assets : List (String × Asset)) (p : String)
    (h : alookup assets "RGB Tif" = none) :
    normTiffSection assets p = .error Err.keyError := by
  unfold normTiffSection
  rw [aindex_err _ _ h]
  rfl

theorem normTiffSection_some (assets : List (String × Asset)) (p : String) (a : Asset)
    (ha : alookup assets "RGB Tif" = some a)
    (hhref : (alookup a "href").isSome = true)
    (hname : (alookup a "name").isSome = true) :
    ∃ t, normTiffSection assets p = .ok t := by
  obtain ⟨h0, hh0⟩ := Option.isSome_iff_exists.mp hhref
  exact ⟨_, by
    unfold normTiffSection
    rw [aindex_ok _ _ _ ha, ok_bind, aindex_ok _ _ _ hh0, ok_bind]
    exact adel_ok _ _ (by
      rw [alookup_aset_ne _ _ _ _ (by decide), alookup_aset_ne _ _ _ _ (by decide),
          alookup_aset_ne _ _ _ _ (by decide), alookup_aset_ne _ _ _ _ (by decide)]
      exact hname)⟩

theorem worldFileTransform_some (a : Asset) (p : String)
    (hhref : (alookup a "href").isSome = true)
    (hname : (alookup a "name").isSome = true) :
    ∃ tw, worldFileTransform a p = .ok tw := by
  obtain ⟨h0, hh0⟩ := Option.isSome_iff_exists.mp hhref
  exact ⟨_, by
    unfold worldFileTransform
    rw [aindex_ok _ _ _ hh0, ok_bind]
    exact adel_ok _ _ (by
      rw [alookup_aset_ne _ _ _ _ (by decide), alookup_aset_ne _ _ _ _ (by decide),
          alookup_aset_ne _ _ _ _ (by decide)]
      exact hname)⟩

theorem normJpegSection_some (assets : List (String × Asset)) (p : String) (a : Asset)
    (ha : alookup assets "RGB JPEG" = some a)
    (hhref : (alookup a "href").isSome = true)
    (hname : (alookup a "name").isSome = true) :
    ∃ j, normJpegSection assets p = .ok j := by
  obtain ⟨h0, hh0⟩ := Option.isSome_iff_exists.mp hhref
  obtain ⟨n, hn⟩ := Option.isSome_iff_exists.mp hname
  have hn2 : alookup (aset a "href" (AVal.str (p ++ "/" ++ avalText h0))) "name" = some n := by
    rw [alookup_aset_ne _ _ _ _ (by decide)]; exact hn
  have hdel : (alookup (aset (aset (aset a "href" (AVal.str (p ++ "/" ++ avalText h0)))
      "title" n) "type" (AVal.str "image/jpeg")) "name").isSome = true := by
    rw [alookup_aset_ne _ _ _ _ (by decide), alookup_aset_ne _ _ _ _ (by decide), hn2]
    rfl
  exact ⟨_, by
    unfold normJpegSection
    simp only [aindex_ok _ _ _ ha, ok_bind, aindex_ok _ _ _ hh0, ok_bind,
      aindex_ok _ _ _ hn2, ok_bind]
    exact adel_ok _ _ hdel⟩

theorem normOverviewSection_some (assets : List (String × Asset)) (p : String) (a : Asset)
    (ha : alookup assets "jpg overview" = some a)
    (hhref : (alookup a "href").isSome = true)
    (hname : (alookup a "name").isSome = true) :
    ∃ o, normOverviewSection assets p = .ok o := by
  obtain ⟨h0, hh0⟩ := Option.isSome_iff_exists.mp hhref
  exact ⟨_, by
    unfold normOverviewSection
    rw [aindex_ok _ _ _ ha, ok_bind, aindex_ok _ _ _ hh0, ok_bind]
    exact adel_ok _ _ (by
      rw [alookup_aset_ne _ _ _ _ (by decide), alookup_aset_ne _ _ _ _ (by decide),
          alookup_aset_ne _ _ _ _ (by decide)]
      exact hname)⟩

theorem normJpegWorldSection_some (assets : List (String × Asset)) (p : String) (a : Asset)
    (ha : alookup assets "jpeg world file" = some a)
    (hhref : (alookup a "href").isSome = true)
    (hname : (alookup a "name").isSome = true) :
    ∃ w, normJpegWorldSection assets p = .ok w := by
  obtain ⟨h0, hh0⟩ := Option.isSome_iff_exists.mp hhref
  exact ⟨_, by
    unfold normJpegWorldSection
    rw [aindex_ok _ _ _ ha, ok_bind, aindex_ok _ _ _ hh0, ok_bind]
    exact adel_ok _ _ (by
      rw [alookup_aset_ne _ _ _ _ (by decide), alookup_aset_ne _ _ _ _ (by decide),
          alookup_aset_ne _ _ _ _ (by decide)]
      exact hname)⟩

theorem normThumbSection_some (assets : List (String × Asset)) (p : String) (a : Asset)
    (ha : alookup assets "thumbnail" = some a)
    (hhref : (alookup a "href").isSome = true)
    (hname : (alookup a "name").isSome = true) :
    ∃ th, normThumbSection assets p = .ok th := by
  obtain ⟨h0, hh0⟩ := Option.isSome_iff_exists.mp hhref
  exact ⟨_, by
    unfold normThumbSection
    rw [aindex_ok _ _ _ ha, ok_bind, aindex_ok _ _ _ hh0, ok_bind]
    exact adel_ok _ _ (by
      rw [alookup_aset_ne _ _ _ _ (by decide), alookup_aset_ne _ _ _ _ (by decide),
          alookup_aset_ne _ _ _ _ (by decide)]
      exact hname)⟩

theorem normVisualSection_some (assets : List (String × Asset)) (p : String) (a : Asset)
    (ha : alookup assets "cog" = some a)
    (hhref : (alookup a "href").isSome = true)
    (hname : (alookup a "name").isSome = true)
    (hfmt : (alookup a "format").isSome = true) :
    ∃ v, normVisualSection assets p = .ok v := by
  obtain ⟨h0, hh0⟩ := Option.isSome_iff_exists.mp hhref
  obtain ⟨n, hn⟩ := Option.isSome_iff_exists.mp hname
  have hn2 : alookup (aset a "href" (AVal.str (p ++ "/" ++ avalText h0))) "name" = some n := by
    rw [alookup_aset_ne _ _ _ _ (by decide)]; exact hn
  have hfmt2 : (alookup (aset (aset (aset a "href" (AVal.str (p ++ "/" ++ avalText h0)))
      "title" n) "type" (AVal.str "image/vnd.stac.geotiff; cloud-optimized=true"))
      "format").isSome = true := by
    rw [alookup_aset_ne _ _ _ _ (by decide), alookup_aset_ne _ _ _ _ (by decide),
        alookup_aset_ne _ _ _ _ (by decide)]
    exact hfmt
  have hname3 : (alookup ((aset (aset (aset a "href" (AVal.str (p ++ "/" ++ avalText h0)))
      "title" n) "type" (AVal.str "image/vnd.stac.geotiff; cloud-optimized=true")).filter
      (fun q => ¬ q.1 = "format")) "name").isSome = true := by
    rw [alookup_erase, if_neg (by decide), alookup_aset_ne _ _ _ _ (by decide),
        alookup_aset_ne _ _ _ _ (by decide), alookup_aset_ne _ _ _ _ (by decide), hn]
    rfl
  exact ⟨_, by
    unfold normVisualSection
    simp only [aindex_ok _ _ _ ha, ok_bind, aindex_ok _ _ _ hh0, ok_bind,
      aindex_ok _ _ _ hn2, ok_bind, adel_ok _ _ hfmt2]
    exact adel_ok _ _ hname3⟩

theorem normMapping_shape (assets : List (String × Asset)) (p : String)
    (out : List (String × Asset)) (h : normMapping assets p = .ok out) :
    ∃ t j o w th v, normTiffSection assets p = .ok t ∧ normJpegSection assets p = .ok j
      ∧ normOverviewSection assets p = .ok o ∧ normJpegWorldSection assets p = .ok w
      ∧ normThumbSection assets p = .ok th ∧ normVisualSection assets p = .ok v
      ∧ ((alookup assets "tiff world file" = none ∧
            out = [("original TIFF", t), ("JPEG", j), ("JPEG overviews", o),
                   ("JPEG world file", w), ("thumbnail", th), ("visual", v)])
         ∨ (∃ a tw, alookup assets "tiff world file" = some a ∧ worldFileTransform a p = .ok tw
              ∧ out = [("original TIFF", t), ("original TIFF world file", tw), ("JPEG", j),
                   ("JPEG overviews", o), ("JPEG world file", w), ("thumbnail", th),
                   ("visual", v)])) := by
  unfold normMapping at h
  obtain ⟨t, ht, h⟩ := bind_ok_extract _ _ _ h
  cases htw : alookup assets "tiff world file" with
  | none =>
    simp only [htw, pure_bind] at h
    obtain ⟨j, hj, h⟩ := bind_ok_extract _ _ _ h
    obtain ⟨o, ho, h⟩ := bind_ok_extract _ _ _ h
    obtain ⟨w, hw, h⟩ := bind_ok_extract _ _ _ h
    obtain ⟨th, hth, h⟩ := bind_ok_extract _ _ _ h
    obtain ⟨v, hv, h⟩ := bind_ok_extract _ _ _ h
    refine ⟨t, j, o, w, th, v, ht, hj, ho, hw, hth, hv, Or.inl ⟨rfl, ?_⟩⟩
    exact (Except.ok.inj h).symm.trans rfl
  | some a =>
    simp only [htw] at h
    obtain ⟨tw, htr, h⟩ := bind_ok_extract _ _ _ h
    simp only [pure_bind] at h
    obtain ⟨j, hj, h⟩ := bind_ok_extract _ _ _ h
    obtain ⟨o, ho, h⟩ := bind_ok_extract _ _ _ h
    obtain ⟨w, hw, h⟩ := bind_ok_extract _ _ _ h
    obtain ⟨th, hth, h⟩ := bind_ok_extract _ _ _ h
    obtain ⟨v, hv, h⟩ := bind_ok_extract _ _ _ h
    refine ⟨t, j, o, w, th, v, ht, hj, ho, hw, hth, hv,
      Or.inr ⟨a, tw, rfl, htr, ?_⟩⟩
    exact (Except.ok.inj h).symm.trans rfl

end IservStac

namespace IservStac

/-- The six legacy role keys whose absence is fatal in mapping shape. -/
def mandatoryRoles : List String :=
  ["RGB Tif", "RGB JPEG", "jpg overview", "jpeg world file", "thumbnail", "cog"]

/-- The fields of one legacy role asset that the mapping-shape code reads
or deletes: href and name always, format for the cog role. -/
def assetFieldsOk (role : String) (a : Asset) : Bool :=
  (alookup a "href").isSome && (alookup a "name").isSome
    && (!(role == "cog") || (alookup a "format").isSome)

/-- A mapping-shape record whose present role assets all carry the fields
the code touches. -/
def roleFieldsOk (assets : List (String × Asset)) : Prop :=
  ∀ role ∈ mandatoryRoles ++ ["tiff world file"],
    (match alookup assets role with
     | some a => assetFieldsOk role a
     | none => true) = true

instance (assets : List (String × Asset)) : Decidable (roleFieldsOk assets) := by
  unfold roleFieldsOk
  infer_instance

/-- A list-shape entry whose href is present and is a string. -/
def hrefIsStr (a : Asset) : Bool :=
  match alookup a "href" with
  | some (.str _) => true
  | _ => false

theorem roleFieldsOk_get (assets : List (String × Asset)) (hw : roleFieldsOk assets)
    (role : String) (hrole : role ∈ mandatoryRoles ++ ["tiff world file"]) (a : Asset)
    (ha : alookup assets role = some a) :
    (alookup a "href").isSome = true ∧ (alookup a "name").isSome = true
      ∧ (role = "cog" → (alookup a "format").isSome = true) := by
  have h := hw role hrole
  rw [ha] at h
  unfold assetFieldsOk at h
  rw [Bool.and_eq_true, Bool.and_eq_true, Bool.or_eq_true] at h
  refine ⟨h.1.1, h.1.2, fun hc => ?_⟩
  rcases h.2 with hz | hz
  · subst hc
    simp at hz
  · exact hz

theorem normList_go (p : String) : ∀ (l : List Asset), (∀ a ∈ l, hrefIsStr a = true) →
    ∀ acc, ∃ out, List.foldlM (listEntryStep p) acc l = .ok out := by
  intro l
  induction l with
  | nil => intro _ acc; exact ⟨acc, rfl⟩
  | cons a rest ih =>
    intro hl acc
    have ha := hl a (List.mem_cons_self a rest)
    unfold hrefIsStr at ha
    cases hh : alookup a "href" with
    | none => rw [hh] at ha; cases ha
    | some v =>
      rw [hh] at ha
      cases v with
      | str s =>
        have hstep : ∃ n2, listEntryStep p acc a = .ok n2 := ⟨_, by
          unfold listEntryStep
          simp only [aindex_ok _ _ _ hh, ok_bind]
          rfl⟩
        obtain ⟨n2, hn2⟩ := hstep
        have hfold : List.foldlM (listEntryStep p) acc (a :: rest) =
            listEntryStep p acc a >>= fun b => List.foldlM (listEntryStep p) b rest := rfl
        rw [hfold, hn2, ok_bind]
        exact ih (fun x hx => hl x (List.mem_cons_of_mem _ hx)) n2
      | ints l2 => cases ha
      | null => cases ha

/-- C3 (corrected). Under records whose present role assets carry the
fields the code touches (href and name, plus format for cog), mapping-shape
normalization succeeds exactly when every mandatory role key is present,
so it raises exactly on a missing mandatory role; list-shape normalization
over entries with string hrefs never raises, silently dropping entries
whose href matches no suffix rule. Without the field conditions the
original claim is false (see the counterexample): a present role asset
lacking its name field also raises. -/
theorem c3_raiseConditions (assets : List (String × Asset)) (l : List Asset) (p : String)
    (hfields : roleFieldsOk assets)
    (hl : ∀ a ∈ l, hrefIsStr a = true) :
    ((∃ out, normMapping assets p = .ok out) ↔
       ∀ role ∈ mandatoryRoles, (alookup assets role).isSome = true)
    ∧ (∃ out2, normList l p = .ok out2) := by
  constructor
  · constructor
    · rintro ⟨out, hout⟩ role hrole
      obtain ⟨t, j, o, w, th, v, ht, hj, ho, hw2, hth, hv, _⟩ :=
        normMapping_shape assets p out hout
      have St : NormalizedAssetSpec assets p "original TIFF" t :=
        (normTiffSection_inv _ _ _ ht).1
      have Sj := normJpegSection_inv _ _ _ hj
      have So := normOverviewSection_inv _ _ _ ho
      have Sw := normJpegWorldSection_inv _ _ _ hw2
      have Sth := normThumbSection_inv _ _ _ hth
      have Sv := normVisualSection_inv _ _ _ hv
      fin_cases hrole
      · obtain ⟨orig, h0x, hr, _⟩ := St
        have hr2 : alookup assets "RGB Tif" = some orig := hr
        rw [hr2]; rfl
      · obtain ⟨orig, h0x, hr, _⟩ := Sj
        have hr2 : alookup assets "RGB JPEG" = some orig := hr
        rw [hr2]; rfl
      · obtain ⟨orig, h0x, hr, _⟩ := So
        have hr2 : alookup assets "jpg overview" = some orig := hr
        rw [hr2]; rfl
      · obtain ⟨orig, h0x, hr, _⟩ := Sw
        have hr2 : alookup assets "jpeg world file" = some orig := hr
        rw [hr2]; rfl
      · obtain ⟨orig, h0x, hr, _⟩ := Sth
        have hr2 : alookup assets "thumbnail" = some orig := hr
        rw [hr2]; rfl
      · obtain ⟨orig, h0x, hr, _⟩ := Sv
        have hr2 : alookup assets "cog" = some orig := hr
        rw [hr2]; rfl
    · intro hall
      obtain ⟨a1, ha1⟩ := Option.isSome_iff_exists.mp (hall "RGB Tif" (by decide))
      have f1 := roleFieldsOk_get assets hfields "RGB Tif" (by decide) a1 ha1
      obtain ⟨t, ht⟩ := normTiffSection_some assets p a1 ha1 f1.1 f1.2.1
      obtain ⟨a2, ha2⟩ := Option.isSome_iff_exists.mp (hall "RGB JPEG" (by decide))
      have f2 := roleFieldsOk_get assets hfields "RGB JPEG" (by decide) a2 ha2
      obtain ⟨j, hj⟩ := normJpegSection_some assets p a2 ha2 f2.1 f2.2.1
      obtain ⟨a3, ha3⟩ := Option.isSome_iff_exists.mp (hall "jpg overview" (by decide))
      have f3 := roleFieldsOk_get assets hfields "jpg overview" (by decide) a3 ha3
      obtain ⟨o, ho⟩ := normOverviewSection_some assets p a3 ha3 f3.1 f3.2.1
      obtain ⟨a4, ha4⟩ := Option.isSome_iff_exists.mp (hall "jpeg world file" (by decide))
      have f4 := roleFieldsOk_get assets hfields "jpeg world file" (by decide) a4 ha4
      obtain ⟨w, hw2⟩ := normJpegWorldSection_some assets p a4 ha4 f4.1 f4.2.1
      obtain ⟨a5, ha5⟩ := Option.isSome_iff_exists.mp (hall "thumbnail" (by decide))
      have f5 := roleFieldsOk_get assets hfields "thumbnail" (by decide) a5 ha5
      obtain ⟨th, hth⟩ := normThumbSection_some assets p a5 ha5 f5.1 f5.2.1
      obtain ⟨a6, ha6⟩ := Option.isSome_iff_exists.mp (hall "cog" (by decide))
      have f6 := roleFieldsOk_get assets hfields "cog" (by decide) a6 ha6
      obtain ⟨v, hv⟩ := normVisualSection_some assets p a6 ha6 f6.1 f6.2.1 (f6.2.2 rfl)
      cases htw : alookup assets "tiff world file" with
      | none =>
        exact ⟨_, by
          unfold normMapping
          simp only [ht, ok_bind, htw, pure_bind, hj, ho, hw2, hth, hv]
          rfl⟩
      | some aw =>
        have f7 := roleFieldsOk_get assets hfields "tiff world file" (by decide) aw htw
        obtain ⟨tw, htwr⟩ := worldFileTransform_some aw p f7.1 f7.2.1
        exact ⟨_, by
          unfold normMapping
          simp only [ht, ok_bind, htw, htwr, pure_bind, hj, ho, hw2, hth, hv]
          rfl⟩
  · exact normList_go p l hl []

/-- C8 (corrected): every asset in the output of mapping-shape
normalization satisfies the rewrite contract: absolute href built as
sourcePrefix, slash, legacy href; title and media type from the fixed
table (title copied from the legacy name for JPEG and visual); the name
binding removed; the format binding removed only for the visual asset. -/
theorem c8_assetRewrite (assets : List (String × Asset)) (p : String)
    (out : List (String × Asset)) (h : normMapping assets p = .ok out) :
    ∀ ka ∈ out, NormalizedAssetSpec assets p ka.1 ka.2 := by
  obtain ⟨t, j, o, w, th, v, ht, hj, ho, hw2, hth, hv, hshape⟩ :=
    normMapping_shape assets p out h
  have St : NormalizedAssetSpec assets p "original TIFF" t :=
    (normTiffSection_inv _ _ _ ht).1
  have Sj := normJpegSection_inv _ _ _ hj
  have So := normOverviewSection_inv _ _ _ ho
  have Sw := normJpegWorldSection_inv _ _ _ hw2
  have Sth := normThumbSection_inv _ _ _ hth
  have Sv := normVisualSection_inv _ _ _ hv
  rcases hshape with ⟨htw, rfl⟩ | ⟨aw, tw, htw, htr, rfl⟩
  · intro ka hka
    simp only [List.mem_cons, List.not_mem_nil, or_false] at hka
    rcases hka with rfl | rfl | rfl | rfl | rfl | rfl
    exacts [St, Sj, So, Sw, Sth, Sv]
  · have Stw : NormalizedAssetSpec assets p "original TIFF world file" tw := by
      obtain ⟨h0, hh0, hhref, htitle, htype, hname⟩ := worldFileTransform_inv p aw tw htr
      have htw2 : alookup assets (legacyRoleOf "original TIFF world file") = some aw := htw
      have htype2 : alookup tw "type" =
          some (.str (mediaTypeOf "original TIFF world file")) := htype
      have htitle2 : alookup tw "title" =
          some (.str (constTitleOf "original TIFF world file")) := htitle
      exact ⟨aw, h0, htw2, hh0, hhref, htype2, fun hc => absurd hc (by decide),
        fun _ => htitle2, hname, fun hc => absurd hc (by decide)⟩
    intro ka hka
    simp only [List.mem_cons, List.not_mem_nil, or_false] at hka
    rcases hka with rfl | rfl | rfl | rfl | rfl | rfl | rfl
    exacts [St, Stw, Sj, So, Sw, Sth, Sv]

/-- C9: the normalized asset set is a function of the assets value and
the source path prefix alone; records differing in any other field, and
keys differing below the directory, normalize identically. -/
theorem c9_normalizationPure (r1 r2 : OldItem) (k1 k2 : String)
    (ha : r1.assets = r2.assets) (hp : sourcePrefixOf k1 = sourcePrefixOf k2) :
    normalizeAssets r1.assets (sourcePrefixOf k1)
      = normalizeAssets r2.assets (sourcePrefixOf k2) := by
  rw [ha, hp]

/-- A mapping-shape asset set carrying all six mandatory roles with the
fields the code touches, and no tiff world file. -/
def fullAssets : List (String × Asset) :=
  [("RGB Tif", [("href", .str "a.TIF"), ("name", .str "tif name")]),
   ("RGB JPEG", [("href", .str "a.JPG"), ("name", .str "jpeg name")]),
   ("jpg overview", [("href", .str "a.JPG.ovr"), ("name", .str "overview")]),
   ("jpeg world file", [("href", .str "a.JGW"), ("name", .str "world")]),
   ("thumbnail", [("href", .str "a.png"), ("name", .str "thumb")]),
   ("cog", [("href", .str "a_cog.TIF"), ("name", .str "cog name"), ("format", .str "COG")])]

/-- A list-shape asset set exercising all six suffix rules plus one
unmatched entry. -/
def listAssets : List Asset :=
  [[("href", .str "x.TFW")], [("href", .str "x.JPG")], [("href", .str "x.png")],
   [("href", .str "x.JGW")], [("href", .str "x.JPG.ovr")], [("href", .str "x.TIF")],
   [("href", .str "x.xml")]]

theorem c3_witness :
    roleFieldsOk fullAssets
    ∧ (∀ a ∈ listAssets, hrefIsStr a = true)
    ∧ (((∃ out, normMapping fullAssets "P" = .ok out) ↔
         ∀ role ∈ mandatoryRoles, (alookup fullAssets role).isSome = true)
       ∧ ∃ out2, normList listAssets "P" = .ok out2) :=
  ⟨by decide, by decide, c3_raiseConditions fullAssets listAssets "P" (by decide) (by decide)⟩

/-- A mapping-shape asset set with every mandatory role present but the
RGB Tif asset lacking its name field. -/
def noNameAssets : List (String × Asset) :=
  [("RGB Tif", [("href", .str "a.TIF")]),
   ("RGB JPEG", [("href", .str "a.JPG"), ("name", .str "j")]),
   ("jpg overview", [("href", .str "o"), ("name", .str "o")]),
   ("jpeg world file", [("href", .str "w"), ("name", .str "w")]),
   ("thumbnail", [("href", .str "t"), ("name", .str "t")]),
   ("cog", [("href", .str "c"), ("name", .str "c"), ("format", .str "f")])]

/-- C3 counterexample: every mandatory role key is present, yet
normalization raises KeyError, because the RGB Tif asset has no name
binding to delete; so raising is not equivalent to a missing mandatory
role key. -/
theorem c3_counterexample :
    (∀ role ∈ mandatoryRoles, (alookup noNameAssets role).isSome = true)
    ∧ normMapping noNameAssets "P" = .error Err.keyError :=
  ⟨by decide, by rfl⟩

/-- The fullAssets record with an extra legacy format field on RGB Tif. -/
def fmtAssets : List (String × Asset) :=
  [("RGB Tif", [("href", .str "a.TIF"), ("name", .str "n"), ("format", .str "GeoTIFF")]),
   ("RGB JPEG", [("href", .str "a.JPG"), ("name", .str "jpeg name")]),
   ("jpg overview", [("href", .str "a.JPG.ovr"), ("name", .str "overview")]),
   ("jpeg world file", [("href", .str "a.JGW"), ("name", .str "world")]),
   ("thumbnail", [("href", .str "a.png"), ("name", .str "thumb")]),
   ("cog", [("href", .str "a_cog.TIF"), ("name", .str "cog name"), ("format", .str "COG")])]

def c8badOut : List (String × Asset) := (normMapping fmtAssets "P").toOption.getD []

/-- C8 counterexample: normalization succeeds and the original TIFF output
asset still contains a format binding, so a normalized non-cog asset does
not generally lose its format field. -/
theorem c8_counterexample :
    normMapping fmtAssets "P" = .ok c8badOut
    ∧ (alookup c8badOut "original TIFF").map (fun ta => alookup ta "format")
        = some (some (.str "GeoTIFF")) :=
  ⟨rfl, rfl⟩

def c8okOut : List (String × Asset) := (normMapping fullAssets "P").toOption.getD []

theorem c8_witness :
    normMapping fullAssets "P" = .ok c8okOut
    ∧ ∀ ka ∈ c8okOut, NormalizedAssetSpec fullAssets "P" ka.1 ka.2 :=
  ⟨rfl, c8_assetRewrite fullAssets "P" c8okOut rfl⟩

def c9rec1 : OldItem :=
  { id := "A", bbox := .null, geometry := .null, properties := [],
    assets := .dict fullAssets }

def c9rec2 : OldItem :=
  { id := "B", bbox := .str "bb", geometry := .str "g",
    properties := [("datetime", .str "2013-03-27T14:18:28Z")],
    assets := .dict fullAssets }

theorem c9_witness :
    normalizeAssets c9rec1.assets (sourcePrefixOf "2013/03/27/a.json")
      = normalizeAssets c9rec2.assets (sourcePrefixOf "2013/03/27/b.json") :=
  c9_normalizationPure c9rec1 c9rec2 "2013/03/27/a.json" "2013/03/27/b.json" rfl rfl

end IservStac

namespace IservStac

/-! Shared concrete inputs for the run-level claims. -/

def exKey : String := "2013/03/27/IP0130327141828.json"

def exRecord : OldItem :=
  { id := "IP0130327141828", bbox := .ints [0, 0, 1, 1], geometry := .str "geom",
    properties := [("datetime", .str "2013-03-27T14:18:28Z")],
    assets := .dict fullAssets }

def exStore : Store :=
  { read := fun k => if k = exKey then some exRecord else none,
    writeOk := fun _ => true }

def exTree := buildTree initSt.catalogs ((splitSlash exKey).take 3)

def exCs : List (String × Catalog) := (exTree.toOption.getD ([], [])).1

def exParents : List String := (exTree.toOption.getD ([], [])).2

/-- The reserved sidecar file names of the key filter. -/
def reservedSidecars : List String := ["catalog.json", "iserv.json", "product.json"]

/-- C7 (corrected): a key is classified Skip exactly when it does not end
in .json, or when it ends in one of the three reserved sidecar names; the
test is a suffix test on the whole key, not an equality test on the last
path segment. A skipped key leaves the run state untouched. -/
theorem c7_keyFilter (key : String) :
    (skipKey key = true ↔
      (¬ pyEndsWith key ".json" = true
        ∨ ∃ n ∈ reservedSidecars, pyEndsWith key n = true))
    ∧ (skipKey key = true → ∀ store st, step store st key = .ok st) := by
  constructor
  · constructor
    · intro h
      unfold skipKey at h
      rcases (Bool.or_eq_true _ _).mp h with h1 | hd
      · rcases (Bool.or_eq_true _ _).mp h1 with h2 | hc
        · rcases (Bool.or_eq_true _ _).mp h2 with ha | hb
          · exact Or.inl (fun hcon => by rw [hcon] at ha; cases ha)
          · exact Or.inr ⟨"catalog.json", by decide, hb⟩
        · exact Or.inr ⟨"iserv.json", by decide, hc⟩
      · exact Or.inr ⟨"product.json", by decide, hd⟩
    · intro h
      unfold skipKey
      rcases h with h | ⟨n, hn, h⟩
      · have hz : pyEndsWith key ".json" = false := by
          cases hb : pyEndsWith key ".json"
          · rfl
          · exact absurd hb h
        rw [hz]
        rfl
      · fin_cases hn
        · simp [h]
        · simp [h]
        · simp [h]
  · intro h store st
    unfold step
    rw [if_pos h]

/-- C7 counterexample: the key a/xcatalog.json ends in .json and its last
path segment xcatalog.json is none of the reserved sidecar names, so the
claimed filename rule classifies it ItemRecord, yet the code skips it. -/
theorem c7_counterexample :
    pyEndsWith "a/xcatalog.json" ".json" = true
    ∧ (splitSlash "a/xcatalog.json").getLastD "" = "xcatalog.json"
    ∧ "xcatalog.json" ∉ reservedSidecars
    ∧ skipKey "a/xcatalog.json" = true := by decide

theorem c7_witness :
    (skipKey "2013/03/27/product.json" = true ↔
      (¬ pyEndsWith "2013/03/27/product.json" ".json" = true
        ∨ ∃ n ∈ reservedSidecars, pyEndsWith "2013/03/27/product.json" n = true))
    ∧ (skipKey "2013/03/27/product.json" = true →
        ∀ store st, step store st "2013/03/27/product.json" = .ok st) :=
  c7_keyFilter "2013/03/27/product.json"

/-- C4 (corrected): a record whose properties mapping carries neither
datetime nor start is processed without any error: the step succeeds, the
item document is assembled and written, and its datetime is null. There
is no Missing datetime failure in the code. -/
theorem c4_nullDatetime (store : Store) (st : St) (key : String) (r : OldItem)
    (cs : List (String × Catalog)) (parents : List String)
    (na : List (String × Asset))
    (hskip : skipKey key = false)
    (htree : buildTree st.catalogs ((splitSlash key).take 3) = .ok (cs, parents))
    (hread : store.read key = some r)
    (hdt : alookup r.properties "datetime" = none)
    (hstart : alookup r.properties "start" = none)
    (hna : normalizeAssets r.assets (sourcePrefixOf key) = .ok na)
    (hwr : store.writeOk ("0.6.1/" ++ joinSlash parents ++ "/" ++ (r.id ++ ".json")) = true) :
    step store st key = .ok
      { catalogs := addItemLink cs (joinSlash parents) (r.id ++ ".json") r.id,
        oldItemVar := some r,
        out := st.out ++ [.line ("0.6.1/" ++ joinSlash parents ++ "/" ++ (r.id ++ ".json"))],
        written := st.written ++ [("0.6.1/" ++ joinSlash parents ++ "/" ++ (r.id ++ ".json"),
          mkItem r na (joinSlash parents))] }
    ∧ (mkItem r na (joinSlash parents)).datetime = AVal.null := by
  constructor
  · unfold step
    rw [if_neg (by rw [hskip]; exact fun hcon => Bool.noConfusion hcon)]
    simp only [htree, hread, hna, hwr, if_true]
  · simp [mkItem, resolveDatetime, hdt, hstart]

/-- A record with neither datetime nor start in its properties. -/
def noDtRecord : OldItem :=
  { id := "IP0130327141828", bbox := .ints [0, 0, 1, 1], geometry := .str "geom",
    properties := [], assets := .dict fullAssets }

def noDtStore : Store := { read := fun _ => some noDtRecord, writeOk := fun _ => true }

theorem c4_witness :
    step noDtStore initSt exKey = .ok
      { catalogs := addItemLink exCs (joinSlash exParents) (noDtRecord.id ++ ".json") noDtRecord.id,
        oldItemVar := some noDtRecord,
        out := initSt.out ++ [.line ("0.6.1/" ++ joinSlash exParents ++ "/" ++ (noDtRecord.id ++ ".json"))],
        written := initSt.written ++ [("0.6.1/" ++ joinSlash exParents ++ "/" ++ (noDtRecord.id ++ ".json"),
          mkItem noDtRecord ((normalizeAssets noDtRecord.assets (sourcePrefixOf exKey)).toOption.getD [])
            (joinSlash exParents))] }
    ∧ (mkItem noDtRecord ((normalizeAssets noDtRecord.assets (sourcePrefixOf exKey)).toOption.getD [])
        (joinSlash exParents)).datetime = AVal.null :=
  c4_nullDatetime noDtStore initSt exKey noDtRecord exCs exParents
    ((normalizeAssets noDtRecord.assets (sourcePrefixOf exKey)).toOption.getD [])
    rfl rfl rfl rfl rfl rfl rfl

def c4runSt : St := (run noDtStore [exKey]).toOption.getD default

/-- C4 counterexample: a one-key run over a record lacking both datetime
and start completes successfully (no abort), and the single written item
carries a null datetime, contradicting the claimed fatal error. -/
theorem c4_counterexample :
    run noDtStore [exKey] = .ok c4runSt
    ∧ c4runSt.written.map (fun wr => wr.2.datetime) = [AVal.null] :=
  ⟨rfl, rfl⟩

/-- C6 (corrected): a failure raised between a successful record read and
the output-key rebinding (here: asset normalization) aborts the whole run
at that key, after printing the offending key and the geometry-stripped
record. Malformed-key date parsing, however, happens before the protected
block: it aborts the run with no emission at all (see the counterexample);
a store write failure also aborts without emission because the except
handler itself fails on the rebound key variable. -/
theorem c6_redactedEmission (store : Store) (st : St) (key : String) (r : OldItem)
    (e : Err) (cs : List (String × Catalog)) (parents : List String)
    (hskip : skipKey key = false)
    (htree : buildTree st.catalogs ((splitSlash key).take 3) = .ok (cs, parents))
    (hread : store.read key = some r)
    (hnorm : normalizeAssets r.assets (sourcePrefixOf key) = .error e) :
    ∀ rest, runFrom store st (key :: rest) = .error (e,
      { st with catalogs := cs, oldItemVar := some r, out := st.out ++ [.line key, redactOut r] }) := by
  intro rest
  have hstep : step store st key = .error (e,
      { st with catalogs := cs, oldItemVar := some r, out := st.out ++ [.line key, redactOut r] }) := by
    unfold step
    rw [if_neg (by rw [hskip]; exact fun hcon => Bool.noConfusion hcon)]
    simp only [htree, hread, hnorm]
  have hfold : runFrom store st (key :: rest) =
      step store st key >>= fun s2 => runFrom store s2 rest := rfl
  rw [hfold, hstep]
  rfl

/-- A store serving a mapping-shape record whose RGB Tif asset lacks the
name field, making normalization raise KeyError. -/
def badAssetRecord : OldItem :=
  { id := "X", bbox := .null, geometry := .str "geom", properties := [],
    assets := .dict noNameAssets }

def badAssetStore : Store := { read := fun _ => some badAssetRecord, writeOk := fun _ => true }

theorem c6_witness :
    runFrom badAssetStore initSt (exKey :: []) = .error (Err.keyError,
      { initSt with catalogs := exCs, oldItemVar := some badAssetRecord, out := initSt.out ++ [.line exKey, redactOut badAssetRecord] }) :=
  c6_redactedEmission badAssetStore initSt exKey badAssetRecord Err.keyError exCs exParents
    rfl rfl rfl rfl []

def c6badKey : String := "2013/13/27/x.json"

def c6errSt : St :=
  match run exStore [c6badKey] with
  | .error (_, s) => s
  | .ok s => s

/-- C6 counterexample: the malformed key 2013/13/27/x.json (month 13)
aborts the run with a date-parse ValueError, and the output is empty: the
offending key and the redacted record are NOT emitted, because the date
parsing happens outside the try block. -/
theorem c6_counterexample :
    run exStore [c6badKey] = .error (Err.valueError, c6errSt)
    ∧ c6errSt.out = [] :=
  ⟨rfl, rfl⟩

def c5st : St := (run exStore [exKey]).toOption.getD default

/-- C5 (corrected): the end-to-end single-key run produces one written
item with exactly the six canonical assets and no original TIFF world
file, a self link ending in /2013/03/27/IP0130327141828.json, exactly one
child link on the 2013/03 node whose href is 27/catalog.json (the relative
location used by the code), and exactly one item link on the 2013/03/27
node. -/
theorem c5_endToEnd :
    run exStore [exKey] = .ok c5st
    ∧ c5st.written.map Prod.fst = ["0.6.1/2013/03/27/IP0130327141828.json"]
    ∧ c5st.written.map (fun wr => wr.2.assets.map Prod.fst)
        = [["original TIFF", "JPEG", "JPEG overviews", "JPEG world file", "thumbnail", "visual"]]
    ∧ c5st.written.map (fun wr => alookup wr.2.assets "original TIFF world file") = [none]
    ∧ c5st.written.map (fun wr => (wr.2.links.filter (fun l => l.rel == "self")).map Link.href)
        = [["https://iserv-stac.s3.amazonaws.com/0.6.1/2013/03/27/IP0130327141828.json"]]
    ∧ pyEndsWith "https://iserv-stac.s3.amazonaws.com/0.6.1/2013/03/27/IP0130327141828.json"
        "/2013/03/27/IP0130327141828.json" = true
    ∧ (alookup c5st.catalogs "2013/03").map
        (fun c => c.links.filter (fun l => l.rel == "child"))
        = some [{ rel := "child", href := "27/catalog.json", title := none }]
    ∧ (alookup c5st.catalogs "2013/03/27").map
        (fun c => c.links.filter (fun l => l.rel == "item"))
        = some [{ rel := "item", href := "IP0130327141828.json", title := some "IP0130327141828" }] :=
  ⟨rfl, rfl, rfl, rfl, rfl, rfl, rfl, rfl⟩

/-- C5 counterexample: the single child link of the 2013/03 node has href
27/catalog.json, and no link anywhere in the final catalog map has the
href 2013/03/27/catalog.json claimed by the specification example. -/
theorem c5_counterexample :
    run exStore [exKey] = .ok c5st
    ∧ (alookup c5st.catalogs "2013/03").map
        (fun c => c.links.filter (fun l => l.rel == "child"))
        = some [{ rel := "child", href := "27/catalog.json", title := none }]
    ∧ (∀ kc ∈ c5st.catalogs, ∀ l ∈ kc.2.links, l.href ≠ "2013/03/27/catalog.json") :=
  ⟨rfl, rfl, by decide⟩

end IservStac

namespace IservStac

/-! Characterization of one tree-builder iteration, and preservation of
item links by tree building. -/

theorem alookup_map_adjust {α : Type} (d : List (String × α)) (k q : String) (f : α → α) :
    alookup (d.map (fun p => if p.1 = k then (p.1, f p.2) else p)) q =
      if q = k then (alookup d k).map f else alookup d q := by
  induction d with
  | nil => simp [alookup]
  | cons p rest ih =>
    by_cases h1 : p.1 = k
    · by_cases h2 : q = k
      · subst h2; simp [alookup, h1, ih, apply_ite Prod.fst, apply_ite Prod.snd]
      · have h4 : ¬ k = q := fun hh => h2 hh.symm
        have h5 : ¬ p.1 = q := fun hh => h2 (h1.symm.trans hh).symm
        simp [alookup, h1, ih, h2, h4, h5, apply_ite Prod.fst, apply_ite Prod.snd]
    · by_cases h2 : q = k
      · subst h2
        simp [alookup, h1, ih, apply_ite Prod.fst, apply_ite Prod.snd]
      · simp [alookup, h1, ih, h2, apply_ite Prod.fst, apply_ite Prod.snd]

theorem alookup_mapUpdate (cs : List (String × Catalog)) (k q : String) (v : Catalog) :
    alookup (mapUpdate cs k v) q =
      if q = k then (alookup cs k).map (fun _ => v) else alookup cs q := by
  unfold mapUpdate
  exact alookup_map_replace cs k q v

theorem alookup_addItemLink (cs : List (String × Catalog)) (cid href title q : String) :
    alookup (addItemLink cs cid href title) q =
      if q = cid then (alookup cs cid).map (fun c => addLinkT c "item" href (some title))
      else alookup cs q := by
  unfold addItemLink
  exact alookup_map_adjust cs cid q (fun c => addLinkT c "item" href (some title))

/-- The freshly created node of one tree iteration. -/
def newNode (catalog_id desc : String) : Catalog :=
  addLinkT (addLinkT (addLinkT
    { id := catalog_id, description := "Imagery from " ++ desc, links := [] }
    "root" root_href none) "collection" root_href none) "parent" "../catalog.json" none

/-- A successful tree iteration either finds its node and changes nothing,
or creates it: the parent node gains a child link holding only the last
component, and the new node is appended with root, collection and parent
links. -/
theorem treeStep_cases (cs : List (String × Catalog)) (parents : List String)
    (component : String) (cs' : List (String × Catalog))
    (h : treeStep cs parents component = .ok cs') :
    (∃ c, alookup cs (joinSlash (parents ++ [component])) = some c ∧ cs' = cs)
    ∨ (∃ parent desc,
        alookup cs (joinSlash (parents ++ [component])) = none
        ∧ alookup cs (if parents.isEmpty then "root" else joinSlash parents) = some parent
        ∧ treeDescriptive parents (joinSlash (parents ++ [component])) = .ok desc
        ∧ cs' = mapUpdate cs (if parents.isEmpty then "root" else joinSlash parents)
            (addLinkT parent "child" (component ++ "/catalog.json") none)
            ++ [(joinSlash (parents ++ [component]),
                 newNode (joinSlash (parents ++ [component])) desc)]) := by
  unfold treeStep at h
  cases halook : alookup cs (joinSlash (parents ++ [component])) with
  | some c =>
    simp only [halook] at h
    exact Or.inl ⟨c, rfl, (Except.ok.inj h).symm⟩
  | none =>
    simp only [halook] at h
    obtain ⟨parent, hp, h⟩ := bind_ok_extract _ _ _ h
    obtain ⟨desc, hd, h⟩ := bind_ok_extract _ _ _ h
    exact Or.inr ⟨parent, desc, rfl, aindex_inv _ _ _ hp, hd, (Except.ok.inj h).symm⟩

/-- Number of item links on the node stored under an id (0 when absent). -/
def itemLinkCount (cs : List (String × Catalog)) (cid : String) : Nat :=
  ((alookup cs cid).map (fun c => c.links.countP (fun l => l.rel == "item"))).getD 0

theorem countP_item_addLinkT (c : Catalog) (rel href : String) (title : Option String)
    (hrel : (rel == "item") = false) :
    (addLinkT c rel href title).links.countP (fun l => l.rel == "item")
      = c.links.countP (fun l => l.rel == "item") := by
  unfold addLinkT
  simp [List.countP_append, List.countP_cons, hrel]

theorem countP_item_newNode (catalog_id desc : String) :
    (newNode catalog_id desc).links.countP (fun l => l.rel == "item") = 0 := by
  unfold newNode
  simp [addLinkT, List.countP_append, List.countP_cons]

theorem treeStep_itemCount (cs : List (String × Catalog)) (parents : List String)
    (component : String) (cs' : List (String × Catalog))
    (h : treeStep cs parents component = .ok cs') (cid : String) :
    itemLinkCount cs' cid = itemLinkCount cs cid := by
  rcases treeStep_cases cs parents component cs' h with
    ⟨c, _, rfl⟩ | ⟨parent, desc, hnew, hpar, _, rfl⟩
  · rfl
  · unfold itemLinkCount
    rw [alookup_append, alookup_mapUpdate]
    by_cases h1 : cid = (if parents.isEmpty then "root" else joinSlash parents)
    · rw [if_pos h1, h1, hpar]
      simp [countP_item_addLinkT]
    · rw [if_neg h1]
      cases h2 : alookup cs cid with
      | some c2 => simp
      | none =>
        simp only [alookup]
        by_cases h3 : joinSlash (parents ++ [component]) = cid
        · simp [h3, countP_item_newNode]
        · simp [h3]

theorem buildTreeGo_itemCount_ok : ∀ (comps : List String)
    (cs : List (String × Catalog)) (parents : List String)
    (cs2 : List (String × Catalog)) (ps2 : List String),
    buildTreeGo cs parents comps = .ok (cs2, ps2) →
    ∀ cid, itemLinkCount cs2 cid = itemLinkCount cs cid := by
  intro comps
  induction comps with
  | nil =>
    intro cs parents cs2 ps2 h cid
    obtain ⟨h1, _⟩ := Prod.mk.inj (Except.ok.inj h)
    rw [← h1]
  | cons c rest ih =>
    intro cs parents cs2 ps2 h cid
    unfold buildTreeGo at h
    cases hts : treeStep cs parents c with
    | error e => rw [hts] at h; cases h
    | ok csm =>
      rw [hts] at h
      exact (ih csm (parents ++ [c]) cs2 ps2 h cid).trans
        (treeStep_itemCount cs parents c csm hts cid)

theorem buildTreeGo_itemCount_err : ∀ (comps : List String)
    (cs : List (String × Catalog)) (parents : List String)
    (e : Err) (cs2 : List (String × Catalog)),
    buildTreeGo cs parents comps = .error (e, cs2) →
    ∀ cid, itemLinkCount cs2 cid = itemLinkCount cs cid := by
  intro comps
  induction comps with
  | nil => intro cs parents e cs2 h cid; cases h
  | cons c rest ih =>
    intro cs parents e cs2 h cid
    unfold buildTreeGo at h
    cases hts : treeStep cs parents c with
    | error e0 =>
      rw [hts] at h
      obtain ⟨_, h2⟩ := Prod.mk.inj (Except.error.inj h)
      rw [← h2]
    | ok csm =>
      rw [hts] at h
      exact (ih csm (parents ++ [c]) e cs2 h cid).trans
        (treeStep_itemCount cs parents c csm hts cid)

/-- C10: whenever processing a key fails, in whatever stage (tree date
parse, record read, normalization, write), no item document is recorded as
written and no catalog node gains an item link; the item link is appended
only on the success path, after the target write. -/
theorem c10_noItemLinkOnFailure (store : Store) (st : St) (key : String)
    (e : Err) (st2 : St) (h : step store st key = .error (e, st2)) :
    st2.written = st.written
    ∧ ∀ cid, itemLinkCount st2.catalogs cid = itemLinkCount st.catalogs cid := by
  unfold step at h
  by_cases hskip : skipKey key = true
  · rw [if_pos hskip] at h; cases h
  · rw [if_neg hskip] at h
    cases htree : buildTree st.catalogs ((splitSlash key).take 3) with
    | error pr =>
      obtain ⟨e0, cs0⟩ := pr
      simp only [htree] at h
      obtain ⟨_, hst⟩ := Prod.mk.inj (Except.error.inj h)
      rw [← hst]
      exact ⟨rfl, fun cid => buildTreeGo_itemCount_err _ _ _ _ _ htree cid⟩
    | ok pr =>
      obtain ⟨cs, parents⟩ := pr
      simp only [htree] at h
      have hpres : ∀ cid, itemLinkCount cs cid = itemLinkCount st.catalogs cid :=
        fun cid => buildTreeGo_itemCount_ok _ _ _ _ _ htree cid
      cases hread : store.read key with
      | none =>
        simp only [hread] at h
        cases hold : st.oldItemVar with
        | none =>
          simp only [hold] at h
          obtain ⟨_, hst⟩ := Prod.mk.inj (Except.error.inj h)
          rw [← hst]
          exact ⟨rfl, hpres⟩
        | some prev =>
          simp only [hold] at h
          obtain ⟨_, hst⟩ := Prod.mk.inj (Except.error.inj h)
          rw [← hst]
          exact ⟨rfl, hpres⟩
      | some r =>
        simp only [hread] at h
        cases hnorm : normalizeAssets r.assets (sourcePrefixOf key) with
        | error e2 =>
          simp only [hnorm] at h
          obtain ⟨_, hst⟩ := Prod.mk.inj (Except.error.inj h)
          rw [← hst]
          exact ⟨rfl, hpres⟩
        | ok na =>
          simp only [hnorm] at h
          by_cases hwr : store.writeOk ("0.6.1/" ++ joinSlash parents ++ "/" ++ (r.id ++ ".json")) = true
          · rw [if_pos hwr] at h; cases h
          · rw [if_neg hwr] at h
            obtain ⟨_, hst⟩ := Prod.mk.inj (Except.error.inj h)
            rw [← hst]
            exact ⟨rfl, hpres⟩

def noWriteStore : Store := { read := fun _ => some exRecord, writeOk := fun _ => false }

def c10errSt : St :=
  match step noWriteStore initSt exKey with
  | .error (_, s) => s
  | .ok s => s

theorem c10_witness :
    step noWriteStore initSt exKey = .error (Err.attributeError, c10errSt)
    ∧ c10errSt.written = initSt.written
    ∧ itemLinkCount c10errSt.catalogs "2013/03/27" = itemLinkCount initSt.catalogs "2013/03/27" :=
  ⟨rfl, (c10_noItemLinkOnFailure noWriteStore initSt exKey Err.attributeError c10errSt rfl).1,
    (c10_noItemLinkOnFailure noWriteStore initSt exKey Err.attributeError c10errSt rfl).2 "2013/03/27"⟩

end IservStac

namespace IservStac

/-! Split and join roundtrip lemmas at the character level. -/

theorem csplit_ne_nil (l : List Char) : csplit l ≠ [] := by
  induction l with
  | nil => simp [csplit]
  | cons c rest ih =>
    unfold csplit
    by_cases hc : c = '/'
    · simp [hc]
    · rw [if_neg hc]
      cases hr : csplit rest with
      | nil => simp
      | cons g gs => simp

theorem cjoin_csplit (l : List Char) : cjoin (csplit l) = l := by
  induction l with
  | nil => rfl
  | cons c rest ih =>
    unfold csplit
    by_cases hc : c = '/'
    · rw [if_pos hc]
      cases hr : csplit rest with
      | nil => exact absurd hr (csplit_ne_nil rest)
      | cons g gs =>
        have h2 : cjoin (g :: gs) = rest := by rw [← hr]; exact ih
        rw [hc]
        show cjoin ([] :: g :: gs) = '/' :: rest
        rw [cjoin, h2]
        rfl
    · rw [if_neg hc]
      cases hr : csplit rest with
      | nil => exact absurd hr (csplit_ne_nil rest)
      | cons g gs =>
        have h2 : cjoin (g :: gs) = rest := by rw [← hr]; exact ih
        cases gs with
        | nil =>
          show cjoin [c :: g] = c :: rest
          rw [show cjoin [c :: g] = c :: g from rfl]
          rw [show cjoin [g] = g from rfl] at h2
          rw [h2]
        | cons g2 gs2 =>
          show cjoin ((c :: g) :: g2 :: gs2) = c :: rest
          rw [cjoin] at h2 ⊢
          rw [← h2]
          rfl

theorem csplit_no_slash (l : List Char) : ∀ p ∈ csplit l, '/' ∉ p := by
  induction l with
  | nil =>
    intro p hp
    simp [csplit] at hp
    subst hp
    simp
  | cons c rest ih =>
    intro p hp
    unfold csplit at hp
    by_cases hc : c = '/'
    · rw [if_pos hc] at hp
      rcases List.mem_cons.mp hp with rfl | hp2
      · simp
      · exact ih p hp2
    · rw [if_neg hc] at hp
      cases hr : csplit rest with
      | nil => exact absurd hr (csplit_ne_nil rest)
      | cons g gs =>
        rw [hr] at hp
        rcases List.mem_cons.mp hp with rfl | hp2
        · have hg : '/' ∉ g := ih g (by rw [hr]; exact List.mem_cons_self g gs)
          simp only [List.mem_cons]
          rintro (h | h)
          · exact hc h.symm
          · exact hg h
        · exact ih p (by rw [hr]; exact List.mem_cons_of_mem g hp2)

theorem csplit_of_no_slash (p : List Char) (hp : '/' ∉ p) : csplit p = [p] := by
  induction p with
  | nil => rfl
  | cons c rest ih =>
    unfold csplit
    have hc : ¬ c = '/' := fun h => hp (List.mem_cons.mpr (Or.inl h.symm))
    rw [if_neg hc, ih (fun h => hp (List.mem_cons_of_mem c h))]

theorem csplit_append_slash (p l : List Char) (hp : '/' ∉ p) :
    csplit (p ++ '/' :: l) = p :: csplit l := by
  induction p with
  | nil => simp [csplit]
  | cons c rest ih =>
    have hc : ¬ c = '/' := fun h => hp (List.mem_cons.mpr (Or.inl h.symm))
    have hr := ih (fun h => hp (List.mem_cons_of_mem c h))
    rw [List.cons_append, csplit, if_neg hc, hr]

theorem cjoin_append_singleton : ∀ (ps : List (List Char)) (x : List Char), ps ≠ [] →
    cjoin (ps ++ [x]) = cjoin ps ++ '/' :: x := by
  intro ps
  induction ps with
  | nil => intro x h; exact absurd rfl h
  | cons p rest ih =>
    intro x _
    cases rest with
    | nil => rfl
    | cons q rest2 =>
      have h1 : cjoin ((p :: q :: rest2) ++ [x]) = p ++ '/' :: cjoin ((q :: rest2) ++ [x]) := rfl
      rw [h1, ih x (by simp)]
      rw [show cjoin (p :: q :: rest2) = p ++ '/' :: cjoin (q :: rest2) from rfl]
      simp

theorem csplit_cjoin : ∀ (ps : List (List Char)), ps ≠ [] → (∀ p ∈ ps, '/' ∉ p) →
    csplit (cjoin ps) = ps := by
  intro ps
  induction ps with
  | nil => intro h; exact absurd rfl h
  | cons p rest ih =>
    intro _ hps
    cases rest with
    | nil => exact csplit_of_no_slash p (hps p (List.mem_cons_self p []))
    | cons q rest2 =>
      show csplit (p ++ '/' :: cjoin (q :: rest2)) = p :: q :: rest2
      rw [csplit_append_slash p _ (hps p (List.mem_cons_self p _)),
        ih (by simp) (fun x hx => hps x (List.mem_cons_of_mem p hx))]

theorem sdata_inj {a b : String} (h : a.data = b.data) : a = b := by
  cases a
  cases b
  cases h
  rfl

theorem joinSlash_splitSlash (s : String) : joinSlash (splitSlash s) = s := by
  unfold joinSlash splitSlash
  rw [List.map_map]
  have hid : (String.data ∘ String.mk) = id := funext fun l => rfl
  rw [hid, List.map_id, cjoin_csplit]

theorem splitSlash_no_slash (s : String) : ∀ p ∈ splitSlash s, '/' ∉ p.data := by
  intro p hp
  unfold splitSlash at hp
  obtain ⟨q, hq, rfl⟩ := List.mem_map.mp hp
  exact csplit_no_slash s.data q hq

theorem splitSlash_joinSlash (ps : List String) (hne : ps ≠ [])
    (hs : ∀ p ∈ ps, '/' ∉ p.data) : splitSlash (joinSlash ps) = ps := by
  unfold splitSlash joinSlash
  rw [show (String.mk (cjoin (ps.map String.data))).data = cjoin (ps.map String.data) from rfl]
  rw [csplit_cjoin (ps.map String.data) (by simp [hne])
    (by intro p hp; obtain ⟨q, hq, rfl⟩ := List.mem_map.mp hp; exact hs q hq)]
  rw [List.map_map]
  have hid : (String.mk ∘ String.data) = id := funext fun s => rfl
  rw [hid, List.map_id]

theorem joinSlash_singleton (c : String) : joinSlash [c] = c := rfl

theorem joinSlash_append_singleton (ps : List String) (c : String) (hne : ps ≠ []) :
    joinSlash (ps ++ [c]) = joinSlash ps ++ "/" ++ c := by
  unfold joinSlash
  have h1 : (ps ++ [c]).map String.data = ps.map String.data ++ [c.data] := by simp
  rw [h1, cjoin_append_singleton _ _ (by simp [hne])]
  apply sdata_inj
  show cjoin (List.map String.data ps) ++ '/' :: c.data
      = (cjoin (List.map String.data ps) ++ ['/']) ++ c.data
  simp

end IservStac

namespace IservStac

/-! Identifier arithmetic: parent prefix, last component, child href. -/

/-- The id of the immediately shorter prefix: the root map key for a
single-component id, else the slash join of all but the last component. -/
def parentKeyOf (id : String) : String :=
  if (splitSlash id).length ≤ 1 then "root" else joinSlash (splitSlash id).dropLast

/-- The last path component of an id. -/
def lastCompOf (id : String) : String := (splitSlash id).getLastD ""

/-- The child-link href written by the tree builder for a node: the last
component of the id followed by /catalog.json. -/
def childHrefOf (id : String) : String := lastCompOf id ++ "/catalog.json"

/-- The id a child link points at, resolved against the holding node:
strip the /catalog.json suffix and prepend the holder path. -/
def stripCat (href : String) : String :=
  String.mk (href.data.take (href.data.length - 13))

def childTarget (holder href : String) : String :=
  if holder = "root" then stripCat href else holder ++ "/" ++ stripCat href

theorem getLastD_concat' {α : Type} : ∀ (l : List α) (c d : α), (l ++ [c]).getLastD d = c := by
  intro l
  induction l with
  | nil => intro c d; rfl
  | cons a rest ih => intro c d; rw [List.cons_append, List.getLastD_cons, ih]

theorem splitSlash_concat (parents : List String) (component : String)
    (hps : ∀ p ∈ parents, '/' ∉ p.data) (hc : '/' ∉ component.data) :
    splitSlash (joinSlash (parents ++ [component])) = parents ++ [component] := by
  apply splitSlash_joinSlash _ (by simp)
  intro p hp
  rcases List.mem_append.mp hp with h | h
  · exact hps p h
  · rw [List.mem_singleton.mp h]
    exact hc

theorem parentKeyOf_concat (parents : List String) (component : String)
    (hps : ∀ p ∈ parents, '/' ∉ p.data) (hc : '/' ∉ component.data) :
    parentKeyOf (joinSlash (parents ++ [component]))
      = if parents.isEmpty then "root" else joinSlash parents := by
  unfold parentKeyOf
  rw [splitSlash_concat parents component hps hc]
  cases parents with
  | nil => simp
  | cons p0 ps =>
    rw [if_neg (by simp), List.dropLast_concat]
    simp

theorem childHrefOf_concat (parents : List String) (component : String)
    (hps : ∀ p ∈ parents, '/' ∉ p.data) (hc : '/' ∉ component.data) :
    childHrefOf (joinSlash (parents ++ [component])) = component ++ "/catalog.json" := by
  unfold childHrefOf lastCompOf
  rw [splitSlash_concat parents component hps hc, getLastD_concat']

theorem splitSlash_concat_length (parents : List String) (component : String)
    (hps : ∀ p ∈ parents, '/' ∉ p.data) (hc : '/' ∉ component.data) :
    (splitSlash (joinSlash (parents ++ [component]))).length = parents.length + 1 := by
  rw [splitSlash_concat parents component hps hc]
  simp

theorem id_reconstruct_deep (k : String) (hlen : ¬ (splitSlash k).length ≤ 1) :
    k = parentKeyOf k ++ "/" ++ lastCompOf k := by
  have hne : splitSlash k ≠ [] := by
    intro hcon
    rw [hcon] at hlen
    exact hlen (by simp)
  rcases List.eq_nil_or_concat (splitSlash k) with hcon | ⟨ps, c, hps⟩
  · exact absurd hcon hne
  · rw [List.concat_eq_append] at hps
    have hps_ne : ps ≠ [] := by
      intro hcon
      rw [hcon] at hps
      rw [hps] at hlen
      exact hlen (by simp)
    have h1 := joinSlash_splitSlash k
    rw [hps, joinSlash_append_singleton ps c hps_ne] at h1
    unfold parentKeyOf lastCompOf
    rw [if_neg hlen, hps, List.dropLast_concat, getLastD_concat']
    exact h1.symm

theorem id_reconstruct_shallow (k : String) (hlen : (splitSlash k).length = 1) :
    k = lastCompOf k := by
  cases hsp : splitSlash k with
  | nil => rw [hsp] at hlen; cases hlen
  | cons a rest =>
    cases rest with
    | nil =>
      have h1 := joinSlash_splitSlash k
      rw [hsp, joinSlash_singleton] at h1
      unfold lastCompOf
      rw [hsp]
      rw [show ([a] : List String).getLastD "" = a from rfl]
      exact h1.symm
    | cons b rest2 => rw [hsp] at hlen; simp at hlen

theorem childHref_inj {k1 k2 : String} (h : childHrefOf k1 = childHrefOf k2) :
    lastCompOf k1 = lastCompOf k2 := by
  unfold childHrefOf at h
  apply sdata_inj
  have hd : (lastCompOf k1).data ++ "/catalog.json".data
      = (lastCompOf k2).data ++ "/catalog.json".data := congrArg String.data h
  exact List.append_cancel_right hd

theorem stripCat_childHref (c : String) : stripCat (c ++ "/catalog.json") = c := by
  unfold stripCat
  apply sdata_inj
  show (c ++ "/catalog.json").data.take ((c ++ "/catalog.json").data.length - 13) = c.data
  rw [show (c ++ "/catalog.json").data = c.data ++ "/catalog.json".data from rfl]
  rw [List.length_append]
  rw [show ("/catalog.json".data).length = 13 from rfl]
  rw [Nat.add_sub_cancel]
  exact List.take_left c.data _

theorem parentId_ne_root_of_desc (parents : List String) (component : String) (desc : String)
    (hps : ∀ p ∈ parents, '/' ∉ p.data) (hc : '/' ∉ component.data)
    (hne : parents ≠ [])
    (hd : treeDescriptive parents (joinSlash (parents ++ [component])) = .ok desc) :
    joinSlash parents ≠ "root" := by
  cases parents with
  | nil => exact absurd rfl hne
  | cons p0 ps =>
    cases ps with
    | nil =>
      unfold treeDescriptive at hd
      rw [if_neg (by simp), if_pos (by simp)] at hd
      cases hym : strptimeYM (joinSlash ([p0] ++ [component])) with
      | none => rw [hym] at hd; cases hd
      | some ym =>
        unfold strptimeYM at hym
        rw [splitSlash_concat [p0] component hps hc] at hym
        cases hy : parseYearPart p0 with
        | none => simp [List.singleton_append, hy] at hym
        | some y =>
          rw [joinSlash_singleton]
          intro hcon
          rw [hcon] at hy
          have h0 : parseYearPart "root" = none := by decide
          rw [h0] at hy
          cases hy
    | cons p1 ps2 =>
      intro hcon
      have hslash : '/' ∈ (joinSlash (p0 :: p1 :: ps2)).data := by
        show '/' ∈ cjoin ((p0 :: p1 :: ps2).map String.data)
        rw [show (p0 :: p1 :: ps2).map String.data
            = p0.data :: p1.data :: (ps2.map String.data) from rfl]
        rw [show cjoin (p0.data :: p1.data :: (ps2.map String.data))
            = p0.data ++ '/' :: cjoin (p1.data :: (ps2.map String.data)) from rfl]
        exact List.mem_append.mpr (Or.inr (List.mem_cons_self _ _))
      rw [hcon] at hslash
      exact absurd hslash (by decide)

end IservStac

namespace IservStac

/-! The catalog-map invariant behind the tree-structure claims. -/

def idsOf (cs : List (String × Catalog)) : List String := cs.map Prod.fst

theorem ids_mapUpdate (cs : List (String × Catalog)) (k : String) (v : Catalog) :
    idsOf (mapUpdate cs k v) = idsOf cs := by
  unfold idsOf mapUpdate
  rw [List.map_map]
  apply List.map_congr_left
  intro p _
  by_cases h : p.1 = k
  · simp [Function.comp, h]
  · simp [Function.comp, h]

theorem ids_addItemLink (cs : List (String × Catalog)) (cid href title : String) :
    idsOf (addItemLink cs cid href title) = idsOf cs := by
  unfold idsOf addItemLink
  rw [List.map_map]
  apply List.map_congr_left
  intro p _
  by_cases h2 : p.1 = cid <;> simp [Function.comp, h2]

theorem alookup_isSome_iff_mem (cs : List (String × Catalog)) (k : String) :
    (alookup cs k).isSome = true ↔ k ∈ idsOf cs := by
  induction cs with
  | nil => simp [alookup, idsOf]
  | cons p rest ih =>
    by_cases h : p.1 = k
    · simp [alookup, idsOf, h]
    · have h2 : ¬ k = p.1 := fun hh => h hh.symm
      simp [alookup, idsOf, h, h2, ih]

/-- The structural invariant of the catalog map: ids are unique, the root
entry exists, every non-root node has its immediate-prefix parent in the
map, ids whose parent prefix is the root key are single-component, every
non-root node carries exactly the one relative parent link, and the child
links of each node count exactly the created nodes whose parent prefix it
is, one per child href. -/
def Inv (cs : List (String × Catalog)) : Prop :=
  (idsOf cs).Nodup
  ∧ (alookup cs "root").isSome = true
  ∧ (∀ k, k ∈ idsOf cs → k ≠ "root" → parentKeyOf k ∈ idsOf cs)
  ∧ (∀ k, k ∈ idsOf cs → k ≠ "root" → parentKeyOf k = "root" → (splitSlash k).length = 1)
  ∧ (∀ k c, alookup cs k = some c → k ≠ "root" →
      c.links.filter (fun l => l.rel == "parent")
        = [{ rel := "parent", href := "../catalog.json", title := none }])
  ∧ (∀ k c, alookup cs k = some c → ∀ h : String,
      c.links.countP (fun l => l.rel == "child" && l.href == h)
        = (idsOf cs).countP (fun k2 =>
            decide (¬ k2 = "root") && decide (parentKeyOf k2 = k) && (childHrefOf k2 == h)))

theorem inv_init : Inv initSt.catalogs := by
  refine ⟨by decide, rfl, ?_, ?_, ?_, ?_⟩
  · intro k hk hkr
    simp [idsOf, initSt] at hk
    exact absurd hk hkr
  · intro k hk hkr
    simp [idsOf, initSt] at hk
    exact absurd hk hkr
  · intro k c halk hkr
    by_cases h : ("root" : String) = k
    · exact absurd h.symm hkr
    · simp [initSt, alookup, h] at halk
  · intro k c halk h
    by_cases hk : ("root" : String) = k
    · have hc : root_catalog = c := by
        simp [initSt, alookup, hk] at halk
        exact halk
      rw [← hc]
      subst hk
      simp [initSt, idsOf, root_catalog, addLinkT, List.countP_cons, parentKeyOf]
    · simp [initSt, alookup, hk] at halk

end IservStac


namespace IservStac

theorem alookup_created (cs : List (String × Catalog)) (pid k0 : String)
    (PV NN parent : Catalog)
    (hpar : alookup cs pid = some parent)
    (hnew : alookup cs k0 = none) (q : String) :
    alookup (mapUpdate cs pid PV ++ [(k0, NN)]) q
      = if q = pid then some PV else if q = k0 then some NN else alookup cs q := by
  rw [alookup_append, alookup_mapUpdate]
  by_cases h1 : q = pid
  · rw [if_pos h1, if_pos h1, h1, hpar]
    rfl
  · rw [if_neg h1, if_neg h1]
    cases h2 : alookup cs q with
    | some c2 =>
      have h3 : ¬ q = k0 := by
        intro hcon
        rw [hcon, hnew] at h2
        cases h2
      rw [if_neg h3]
    | none =>
      by_cases h3 : q = k0
      · rw [if_pos h3]
        simp [alookup, h3]
      · rw [if_neg h3]
        simp [alookup, show ¬ k0 = q from fun hh => h3 hh.symm]

theorem inv_treeStep (cs cs' : List (String × Catalog)) (parents : List String)
    (component : String)
    (hps : ∀ p ∈ parents, '/' ∉ p.data) (hc : '/' ∉ component.data)
    (h : treeStep cs parents component = .ok cs') (hinv : Inv cs) : Inv cs' := by
  rcases treeStep_cases cs parents component cs' h with
    ⟨c0, _, rfl⟩ | ⟨parent, desc, hnew, hpar, hdesc, rfl⟩
  · exact hinv
  · obtain ⟨hnd, hroot, hpm, hsh, hpf, hcc⟩ := hinv
    have hk0_parent : parentKeyOf (joinSlash (parents ++ [component]))
        = (if parents.isEmpty then "root" else joinSlash parents) :=
      parentKeyOf_concat parents component hps hc
    have hk0_href : childHrefOf (joinSlash (parents ++ [component]))
        = component ++ "/catalog.json" := childHrefOf_concat parents component hps hc
    have hk0_notmem : joinSlash (parents ++ [component]) ∉ idsOf cs := by
      rw [← alookup_isSome_iff_mem, hnew]
      simp
    have hpid_mem : (if parents.isEmpty then "root" else joinSlash parents) ∈ idsOf cs := by
      rw [← alookup_isSome_iff_mem, hpar]
      rfl
    have hk0_ne_pid : joinSlash (parents ++ [component])
        ≠ (if parents.isEmpty then "root" else joinSlash parents) :=
      fun hcon => hk0_notmem (hcon ▸ hpid_mem)
    have hk0_ne_root : joinSlash (parents ++ [component]) ≠ "root" := by
      intro hcon
      apply hk0_notmem
      rw [hcon]
      exact (alookup_isSome_iff_mem cs "root").mp hroot
    have h4new : parentKeyOf (joinSlash (parents ++ [component])) = "root" →
        (splitSlash (joinSlash (parents ++ [component]))).length = 1 := by
      intro h2
      by_cases hpe : parents = []
      · rw [splitSlash_concat_length parents component hps hc, hpe]
        rfl
      · exfalso
        have hpid2 : (if parents.isEmpty then "root" else joinSlash parents)
            = joinSlash parents := by
          rw [if_neg (by simp [hpe])]
        rw [hk0_parent, hpid2] at h2
        exact parentId_ne_root_of_desc parents component desc hps hc hpe hdesc h2
    have hids : idsOf (mapUpdate cs (if parents.isEmpty then "root" else joinSlash parents)
        (addLinkT parent "child" (component ++ "/catalog.json") none)
        ++ [(joinSlash (parents ++ [component]),
             newNode (joinSlash (parents ++ [component])) desc)])
        = idsOf cs ++ [joinSlash (parents ++ [component])] := by
      unfold idsOf
      rw [List.map_append]
      have h1 := ids_mapUpdate cs (if parents.isEmpty then "root" else joinSlash parents)
        (addLinkT parent "child" (component ++ "/catalog.json") none)
      unfold idsOf at h1
      rw [h1]
      rfl
    have hlook := alookup_created cs (if parents.isEmpty then "root" else joinSlash parents)
      (joinSlash (parents ++ [component]))
      (addLinkT parent "child" (component ++ "/catalog.json") none)
      (newNode (joinSlash (parents ++ [component])) desc) parent hpar hnew
    refine ⟨?_, ?_, ?_, ?_, ?_, ?_⟩
    · rw [hids, List.nodup_append]
      exact ⟨hnd, List.nodup_singleton _, by
        intro a ha hb
        rw [List.mem_singleton.mp hb] at ha
        exact hk0_notmem ha⟩
    · rw [hlook "root"]
      by_cases h1 : ("root" : String) = (if parents.isEmpty then "root" else joinSlash parents)
      · rw [if_pos h1]
        rfl
      · rw [if_neg h1, if_neg (fun hh => hk0_ne_root hh.symm)]
        exact hroot
    · intro k hk hkr
      rw [hids] at hk ⊢
      rcases List.mem_append.mp hk with hk1 | hk1
      · exact List.mem_append.mpr (Or.inl (hpm k hk1 hkr))
      · rw [List.mem_singleton.mp hk1, hk0_parent]
        exact List.mem_append.mpr (Or.inl hpid_mem)
    · intro k hk hkr h2
      rw [hids] at hk
      rcases List.mem_append.mp hk with hk1 | hk1
      · exact hsh k hk1 hkr h2
      · rw [List.mem_singleton.mp hk1] at h2 ⊢
        exact h4new h2
    · intro k c halk hkr
      rw [hlook k] at halk
      by_cases h1 : k = (if parents.isEmpty then "root" else joinSlash parents)
      · rw [if_pos h1] at halk
        have hc2 := (Option.some.inj halk).symm
        rw [hc2]
        have hpid_ne_root : (if parents.isEmpty then "root" else joinSlash parents) ≠ "root" := by
          intro hcon
          exact hkr (h1.trans hcon)
        have hold := hpf (if parents.isEmpty then "root" else joinSlash parents) parent hpar
          hpid_ne_root
        unfold addLinkT
        rw [List.filter_append, hold]
        rfl
      · rw [if_neg h1] at halk
        by_cases h2 : k = joinSlash (parents ++ [component])
        · rw [if_pos h2] at halk
          have hc2 := (Option.some.inj halk).symm
          rw [hc2]
          rfl
        · rw [if_neg h2] at halk
          exact hpf k c halk hkr
    · intro k c halk h
      rw [hlook k] at halk
      rw [hids, List.countP_append]
      by_cases h1 : k = (if parents.isEmpty then "root" else joinSlash parents)
      · subst h1
        rw [if_pos rfl] at halk
        have hc2 := (Option.some.inj halk).symm
        rw [hc2]
        unfold addLinkT
        rw [List.countP_append, hcc _ parent hpar h]
        congr 1
        simp [List.countP_cons, hk0_href, hk0_parent, hk0_ne_root]
      · rw [if_neg h1] at halk
        by_cases h2 : k = joinSlash (parents ++ [component])
        · rw [if_pos h2] at halk
          have hc2 := (Option.some.inj halk).symm
          rw [hc2]
          have hzero_new : (newNode (joinSlash (parents ++ [component])) desc).links.countP
              (fun l => l.rel == "child" && l.href == h) = 0 := by rfl
          have hzero_old : (idsOf cs).countP (fun k2 =>
              decide (¬ k2 = "root") && decide (parentKeyOf k2 = k) && (childHrefOf k2 == h)) = 0 := by
            rw [List.countP_eq_zero]
            intro k2 hk2 hcon
            simp only [Bool.and_eq_true, decide_eq_true_eq] at hcon
            apply hk0_notmem
            rw [← h2, ← hcon.1.2]
            exact hpm k2 hk2 hcon.1.1
          have hz2 : List.countP (fun k2 =>
              decide (¬ k2 = "root") && decide (parentKeyOf k2 = k) && (childHrefOf k2 == h))
              [joinSlash (parents ++ [component])] = 0 := by
            rw [List.countP_eq_zero]
            intro k2 hk2 hcon
            rw [List.mem_singleton.mp hk2] at hcon
            simp only [Bool.and_eq_true, decide_eq_true_eq, hk0_parent] at hcon
            exact hk0_ne_pid (hcon.1.2.trans h2).symm
          rw [hzero_new, hzero_old, hz2]
        · rw [if_neg h2] at halk
          rw [hcc k c halk h]
          have hz2 : List.countP (fun k2 =>
              decide (¬ k2 = "root") && decide (parentKeyOf k2 = k) && (childHrefOf k2 == h))
              [joinSlash (parents ++ [component])] = 0 := by
            rw [List.countP_eq_zero]
            intro k2 hk2 hcon
            rw [List.mem_singleton.mp hk2] at hcon
            simp only [Bool.and_eq_true, decide_eq_true_eq, hk0_parent] at hcon
            exact h1 hcon.1.2.symm
          rw [hz2, Nat.add_zero]

end IservStac

namespace IservStac

/-! Preservation of the invariant through item-link registration, tree
building, one key step, and the whole loop; growth of the id set. -/

theorem inv_addItemLink (cs : List (String × Catalog)) (cid href title : String)
    (hinv : Inv cs) : Inv (addItemLink cs cid href title) := by
  obtain ⟨hnd, hroot, hpm, hsh, hpf, hcc⟩ := hinv
  refine ⟨?_, ?_, ?_, ?_, ?_, ?_⟩
  · rw [ids_addItemLink]
    exact hnd
  · rw [alookup_addItemLink]
    by_cases h1 : ("root" : String) = cid
    · rw [if_pos h1, ← h1]
      cases hr : alookup cs "root" with
      | none => rw [hr] at hroot; cases hroot
      | some c => rfl
    · rw [if_neg h1]
      exact hroot
  · intro k hk hkr
    rw [ids_addItemLink] at hk ⊢
    exact hpm k hk hkr
  · intro k hk hkr h2
    rw [ids_addItemLink] at hk
    exact hsh k hk hkr h2
  · intro k c halk hkr
    rw [alookup_addItemLink] at halk
    by_cases h1 : k = cid
    · rw [if_pos h1] at halk
      obtain ⟨c0, hc0, hfc⟩ := Option.map_eq_some'.mp halk
      rw [← hfc]
      unfold addLinkT
      rw [List.filter_append, hpf cid c0 hc0 (fun hh => hkr (h1.trans hh))]
      rfl
    · rw [if_neg h1] at halk
      exact hpf k c halk hkr
  · intro k c halk h
    rw [alookup_addItemLink] at halk
    rw [ids_addItemLink]
    by_cases h1 : k = cid
    · rw [if_pos h1] at halk
      obtain ⟨c0, hc0, hfc⟩ := Option.map_eq_some'.mp halk
      rw [← hfc]
      unfold addLinkT
      rw [List.countP_append]
      have hz : List.countP (fun l => l.rel == "child" && l.href == h)
          ([{ rel := "item", href := href, title := some title }] : List Link) = 0 := rfl
      rw [hz, Nat.add_zero, hcc cid c0 hc0 h, h1]
    · rw [if_neg h1] at halk
      exact hcc k c halk h

theorem ids_created (cs : List (String × Catalog)) (pid k0 : String) (PV NN : Catalog) :
    idsOf (mapUpdate cs pid PV ++ [(k0, NN)]) = idsOf cs ++ [k0] := by
  unfold idsOf
  rw [List.map_append]
  have h1 := ids_mapUpdate cs pid PV
  unfold idsOf at h1
  rw [h1]
  rfl

/-- Lookup-or-create on the id level: a tree iteration either finds the id
present and leaves the map unchanged, or appends exactly the missing id. -/
theorem treeStep_ids (cs : List (String × Catalog)) (parents : List String)
    (component : String) (cs2 : List (String × Catalog))
    (h : treeStep cs parents component = .ok cs2) :
    (joinSlash (parents ++ [component]) ∈ idsOf cs ∧ cs2 = cs)
    ∨ (joinSlash (parents ++ [component]) ∉ idsOf cs
        ∧ idsOf cs2 = idsOf cs ++ [joinSlash (parents ++ [component])]) := by
  rcases treeStep_cases cs parents component cs2 h with
    ⟨c0, hl, rfl⟩ | ⟨parent, desc, hnew, hpar, hdesc, rfl⟩
  · exact Or.inl ⟨(alookup_isSome_iff_mem _ _).mp (by rw [hl]; rfl), rfl⟩
  · refine Or.inr ⟨?_, ids_created _ _ _ _ _⟩
    rw [← alookup_isSome_iff_mem, hnew]
    simp

theorem treeStep_mem_mono (cs : List (String × Catalog)) (parents : List String)
    (component : String) (cs2 : List (String × Catalog))
    (h : treeStep cs parents component = .ok cs2) (k : String)
    (hk : k ∈ idsOf cs) : k ∈ idsOf cs2 := by
  rcases treeStep_ids cs parents component cs2 h with ⟨_, rfl⟩ | ⟨_, hids⟩
  · exact hk
  · rw [hids]
    exact List.mem_append.mpr (Or.inl hk)

theorem treeStep_mem_new (cs : List (String × Catalog)) (parents : List String)
    (component : String) (cs2 : List (String × Catalog))
    (h : treeStep cs parents component = .ok cs2) :
    joinSlash (parents ++ [component]) ∈ idsOf cs2 := by
  rcases treeStep_ids cs parents component cs2 h with ⟨hm, rfl⟩ | ⟨_, hids⟩
  · exact hm
  · rw [hids]
    exact List.mem_append.mpr (Or.inr (List.mem_singleton.mpr rfl))

theorem buildTreeGo_mem_mono : ∀ (comps : List String)
    (cs : List (String × Catalog)) (parents : List String)
    (cs2 : List (String × Catalog)) (ps2 : List String),
    buildTreeGo cs parents comps = .ok (cs2, ps2) →
    ∀ k ∈ idsOf cs, k ∈ idsOf cs2 := by
  intro comps
  induction comps with
  | nil =>
    intro cs parents cs2 ps2 h k hk
    obtain ⟨h1, _⟩ := Prod.mk.inj (Except.ok.inj h)
    rw [← h1]
    exact hk
  | cons c rest ih =>
    intro cs parents cs2 ps2 h k hk
    unfold buildTreeGo at h
    cases hts : treeStep cs parents c with
    | error e => rw [hts] at h; cases h
    | ok csm =>
      rw [hts] at h
      exact ih csm (parents ++ [c]) cs2 ps2 h k (treeStep_mem_mono cs parents c csm hts k hk)

/-- Every nonempty prefix of the processed component list has its node in
the map after tree building. -/
theorem buildTreeGo_prefixes : ∀ (comps : List String)
    (cs : List (String × Catalog)) (parents : List String)
    (cs2 : List (String × Catalog)) (ps2 : List String),
    buildTreeGo cs parents comps = .ok (cs2, ps2) →
    ∀ i, 1 ≤ i → i ≤ comps.length →
      joinSlash (parents ++ comps.take i) ∈ idsOf cs2 := by
  intro comps
  induction comps with
  | nil =>
    intro cs parents cs2 ps2 h i h1 h2
    simp only [List.length_nil] at h2
    omega
  | cons c rest ih =>
    intro cs parents cs2 ps2 h i h1 h2
    unfold buildTreeGo at h
    cases hts : treeStep cs parents c with
    | error e => rw [hts] at h; cases h
    | ok csm =>
      rw [hts] at h
      cases i with
      | zero => omega
      | succ j =>
        rw [List.take_succ_cons]
        rcases Nat.eq_zero_or_pos j with hj0 | hj1
        · rw [hj0, List.take_zero]
          exact buildTreeGo_mem_mono rest csm (parents ++ [c]) cs2 ps2 h _
            (treeStep_mem_new cs parents c csm hts)
        · have h3 : parents ++ c :: rest.take j = (parents ++ [c]) ++ rest.take j := by
            simp
          rw [h3]
          exact ih csm (parents ++ [c]) cs2 ps2 h j hj1
            (by simp only [List.length_cons] at h2; omega)

theorem inv_buildTreeGo : ∀ (comps : List String)
    (cs : List (String × Catalog)) (parents : List String)
    (cs2 : List (String × Catalog)) (ps2 : List String),
    (∀ p ∈ parents, '/' ∉ p.data) → (∀ c ∈ comps, '/' ∉ c.data) →
    buildTreeGo cs parents comps = .ok (cs2, ps2) → Inv cs → Inv cs2 := by
  intro comps
  induction comps with
  | nil =>
    intro cs parents cs2 ps2 hps hcs h hinv
    obtain ⟨h1, _⟩ := Prod.mk.inj (Except.ok.inj h)
    rw [← h1]
    exact hinv
  | cons c rest ih =>
    intro cs parents cs2 ps2 hps hcs h hinv
    unfold buildTreeGo at h
    cases hts : treeStep cs parents c with
    | error e => rw [hts] at h; cases h
    | ok csm =>
      rw [hts] at h
      have hc : '/' ∉ c.data := hcs c (List.mem_cons_self _ _)
      have hps2 : ∀ p ∈ parents ++ [c], '/' ∉ p.data := by
        intro p hp
        rcases List.mem_append.mp hp with h3 | h3
        · exact hps p h3
        · rw [List.mem_singleton.mp h3]
          exact hc
      exact ih csm (parents ++ [c]) cs2 ps2 hps2
        (fun x hx => hcs x (List.mem_cons_of_mem _ hx)) h
        (inv_treeStep cs csm parents c hps hc hts hinv)

/-- The catalogs reachable from a successful step: unchanged on skip, and
otherwise the tree-built map with one item link appended. -/
theorem step_ok_catalogs (store : Store) (st : St) (key : String) (st2 : St)
    (h : step store st key = .ok st2) :
    (skipKey key = true ∧ st2 = st)
    ∨ ∃ cs parents old_item,
        buildTree st.catalogs ((splitSlash key).take 3) = .ok (cs, parents)
        ∧ st2.catalogs = addItemLink cs (joinSlash parents)
            (OldItem.id old_item ++ ".json") (OldItem.id old_item) := by
  unfold step at h
  by_cases hskip : skipKey key = true
  · rw [if_pos hskip] at h
    exact Or.inl ⟨hskip, (Except.ok.inj h).symm⟩
  · rw [if_neg hskip] at h
    cases htree : buildTree st.catalogs ((splitSlash key).take 3) with
    | error pr =>
      obtain ⟨e0, cs0⟩ := pr
      simp only [htree] at h
      cases h
    | ok pr =>
      obtain ⟨cs, parents⟩ := pr
      simp only [htree] at h
      cases hread : store.read key with
      | none =>
        simp only [hread] at h
        cases hov : st.oldItemVar with
        | none => simp only [hov] at h; cases h
        | some prev => simp only [hov] at h; cases h
      | some old_item =>
        simp only [hread] at h
        cases hnorm : normalizeAssets old_item.assets (sourcePrefixOf key) with
        | error e => simp only [hnorm] at h; cases h
        | ok new_assets =>
          simp only [hnorm] at h
          by_cases hw : store.writeOk ("0.6.1/" ++ joinSlash parents ++ "/"
              ++ (OldItem.id old_item ++ ".json")) = true
          · rw [if_pos hw] at h
            refine Or.inr ⟨cs, parents, old_item, rfl, ?_⟩
            rw [← Except.ok.inj h]
          · rw [if_neg hw] at h
            cases h

theorem inv_step (store : Store) (st : St) (key : String) (st2 : St)
    (h : step store st key = .ok st2) (hinv : Inv st.catalogs) : Inv st2.catalogs := by
  rcases step_ok_catalogs store st key st2 h with ⟨_, rfl⟩
    | ⟨cs, parents, old_item, htree, hcat⟩
  · exact hinv
  · rw [hcat]
    apply inv_addItemLink
    exact inv_buildTreeGo _ st.catalogs [] cs parents
      (fun p hp => absurd hp (List.not_mem_nil p))
      (fun c hc => splitSlash_no_slash key c (List.take_subset 3 _ hc)) htree hinv

theorem step_mem_mono (store : Store) (st : St) (key : String) (st2 : St)
    (h : step store st key = .ok st2) (k : String) (hk : k ∈ idsOf st.catalogs) :
    k ∈ idsOf st2.catalogs := by
  rcases step_ok_catalogs store st key st2 h with ⟨_, rfl⟩
    | ⟨cs, parents, old_item, htree, hcat⟩
  · exact hk
  · rw [hcat, ids_addItemLink]
    exact buildTreeGo_mem_mono _ st.catalogs [] cs parents htree k hk

theorem step_prefixes (store : Store) (st : St) (key : String) (st2 : St)
    (hskip : ¬ skipKey key = true) (h : step store st key = .ok st2) :
    ∀ i, 1 ≤ i → i ≤ ((splitSlash key).take 3).length →
      joinSlash (((splitSlash key).take 3).take i) ∈ idsOf st2.catalogs := by
  intro i h1 h2
  rcases step_ok_catalogs store st key st2 h with ⟨hsk, rfl⟩
    | ⟨cs, parents, old_item, htree, hcat⟩
  · exact absurd hsk hskip
  · rw [hcat, ids_addItemLink]
    have h3 := buildTreeGo_prefixes _ st.catalogs [] cs parents htree i h1 h2
    rw [List.nil_append] at h3
    exact h3

theorem runFrom_inv : ∀ (keys : List String) (store : Store) (st st2 : St),
    runFrom store st keys = .ok st2 → Inv st.catalogs → Inv st2.catalogs := by
  intro keys
  induction keys with
  | nil =>
    intro store st st2 h hinv
    rw [← Except.ok.inj h]
    exact hinv
  | cons k0 ks ih =>
    intro store st st2 h hinv
    obtain ⟨s1, h1, h2⟩ := bind_ok_extract (step store st k0)
      (fun s1 => runFrom store s1 ks) st2 h
    exact ih store s1 st2 h2 (inv_step store st k0 s1 h1 hinv)

theorem runFrom_mem_mono : ∀ (keys : List String) (store : Store) (st st2 : St),
    runFrom store st keys = .ok st2 →
    ∀ k ∈ idsOf st.catalogs, k ∈ idsOf st2.catalogs := by
  intro keys
  induction keys with
  | nil =>
    intro store st st2 h k hk
    rw [← Except.ok.inj h]
    exact hk
  | cons k0 ks ih =>
    intro store st st2 h k hk
    obtain ⟨s1, h1, h2⟩ := bind_ok_extract (step store st k0)
      (fun s1 => runFrom store s1 ks) st2 h
    exact ih store s1 st2 h2 k (step_mem_mono store st k0 s1 h1 k hk)

end IservStac

namespace IservStac

/-! The two tree-structure claims, derived from the invariant. -/

theorem countP_eq_one_of_unique (p : String → Bool) : ∀ (l : List String),
    l.Nodup → ∀ a ∈ l, p a = true → (∀ b ∈ l, p b = true → b = a) →
    l.countP p = 1 := by
  intro l
  induction l with
  | nil => intro _ a ha; cases ha
  | cons x xs ih =>
    intro hnd a ha hpa huniq
    obtain ⟨hxnot, hndxs⟩ := List.nodup_cons.mp hnd
    rw [List.countP_cons]
    cases hpx : p x with
    | true =>
      have hxa : x = a := huniq x (List.mem_cons_self _ _) hpx
      have hz : xs.countP p = 0 := by
        rw [List.countP_eq_zero]
        intro b hb hpb
        have hba : b = a := huniq b (List.mem_cons_of_mem _ hb) hpb
        apply hxnot
        rw [hxa, ← hba]
        exact hb
      rw [hz]
      rfl
    | false =>
      have hax : a ∈ xs := by
        rcases List.mem_cons.mp ha with h1 | h1
        · rw [← h1] at hpx
          rw [hpa] at hpx
          cases hpx
        · exact h1
      have hrec := ih hndxs a hax hpa
        (fun b hb hpb => huniq b (List.mem_cons_of_mem _ hb) hpb)
      simp [hrec]

/-- Under the invariant, an id is determined by its parent prefix and last
component: ids are genuine tree addresses. -/
theorem id_unique_of_shallow (cs : List (String × Catalog))
    (hsh : ∀ k ∈ idsOf cs, k ≠ "root" → parentKeyOf k = "root" →
      (splitSlash k).length = 1)
    (k k2 : String) (hk : k ∈ idsOf cs) (hk2 : k2 ∈ idsOf cs)
    (hkr : k ≠ "root") (hk2r : k2 ≠ "root")
    (hp : parentKeyOf k2 = parentKeyOf k) (hl : lastCompOf k2 = lastCompOf k) :
    k2 = k := by
  by_cases hroot : parentKeyOf k = "root"
  · have h1 : (splitSlash k).length = 1 := hsh k hk hkr hroot
    have h2 : (splitSlash k2).length = 1 := hsh k2 hk2 hk2r (hp.trans hroot)
    rw [id_reconstruct_shallow k2 h2, hl, ← id_reconstruct_shallow k h1]
  · have hd1 : ¬ (splitSlash k).length ≤ 1 := by
      intro hle
      apply hroot
      unfold parentKeyOf
      rw [if_pos hle]
    have hd2 : ¬ (splitSlash k2).length ≤ 1 := by
      intro hle
      apply hroot
      rw [← hp]
      unfold parentKeyOf
      rw [if_pos hle]
    rw [id_reconstruct_deep k2 hd2, hp, hl, ← id_reconstruct_deep k hd1]

/-- C1: over any successful run the catalog map holds exactly one node per
prefix id, and node management is idempotent lookup-or-create: an
iteration on a present prefix returns the map unchanged, one on an absent
prefix appends exactly that id, a successful step never drops an id, and
after a successful step on a processed key every nonempty prefix of its
first three components has its node in the map. -/
theorem c1_uniqueNodes (store : Store) (keys : List String) (st2 : St)
    (h : run store keys = .ok st2) :
    (idsOf st2.catalogs).Nodup
    ∧ (∀ cs parents component cs2, treeStep cs parents component = .ok cs2 →
        (joinSlash (parents ++ [component]) ∈ idsOf cs → cs2 = cs)
        ∧ (joinSlash (parents ++ [component]) ∉ idsOf cs →
            idsOf cs2 = idsOf cs ++ [joinSlash (parents ++ [component])]))
    ∧ (∀ st0 st1 key, step store st0 key = .ok st1 →
        ∀ k ∈ idsOf st0.catalogs, k ∈ idsOf st1.catalogs)
    ∧ (∀ st0 st1 key, ¬ skipKey key = true → step store st0 key = .ok st1 →
        ∀ i, 1 ≤ i → i ≤ ((splitSlash key).take 3).length →
          joinSlash (((splitSlash key).take 3).take i) ∈ idsOf st1.catalogs) := by
  refine ⟨(runFrom_inv keys store initSt st2 h inv_init).1, ?_, ?_, ?_⟩
  · intro cs parents component cs2 hts
    constructor
    · intro hmem
      rcases treeStep_ids cs parents component cs2 hts with ⟨_, rfl⟩ | ⟨hnot, _⟩
      · rfl
      · exact absurd hmem hnot
    · intro hnot
      rcases treeStep_ids cs parents component cs2 hts with ⟨hmem, rfl⟩ | ⟨_, hids⟩
      · exact absurd hmem hnot
      · exact hids
  · intro st0 st1 key hstep k hk
    exact step_mem_mono store st0 key st1 hstep k hk
  · intro st0 st1 key hskip hstep i h1 h2
    exact step_prefixes store st0 key st1 hskip hstep i h1 h2

theorem c1_witness : (idsOf c5st.catalogs).Nodup :=
  (c1_uniqueNodes exStore [exKey] c5st rfl).1

/-- C2: after any successful run, every non-root catalog node carries
exactly the single relative parent link ../catalog.json pointing one
directory up, its immediate-prefix node is in the map and holds exactly
one child link with the node's relative catalog href, and every child link
anywhere in the map that resolves to the node is that one: it is held by
the immediate-prefix node and carries exactly that href. -/
theorem c2_parentChild (store : Store) (keys : List String) (st2 : St)
    (h : run store keys = .ok st2) (k : String) (c : Catalog)
    (hk : alookup st2.catalogs k = some c) (hkr : k ≠ "root") :
    c.links.filter (fun l => l.rel == "parent")
        = [{ rel := "parent", href := "../catalog.json", title := none }]
    ∧ (∃ pc, alookup st2.catalogs (parentKeyOf k) = some pc
        ∧ pc.links.countP (fun l => l.rel == "child" && l.href == childHrefOf k) = 1)
    ∧ (∀ q qc, alookup st2.catalogs q = some qc → ∀ l ∈ qc.links,
        l.rel = "child" → childTarget q l.href = k →
          q = parentKeyOf k ∧ l.href = childHrefOf k) := by
  obtain ⟨hnd, hroot, hpm, hsh, hpf, hcc⟩ := runFrom_inv keys store initSt st2 h inv_init
  have hkmem : k ∈ idsOf st2.catalogs :=
    (alookup_isSome_iff_mem _ _).mp (by rw [hk]; rfl)
  refine ⟨hpf k c hk hkr, ?_, ?_⟩
  · have hpmem : parentKeyOf k ∈ idsOf st2.catalogs := hpm k hkmem hkr
    obtain ⟨pc, hpc⟩ := Option.isSome_iff_exists.mp
      ((alookup_isSome_iff_mem _ _).mpr hpmem)
    refine ⟨pc, hpc, ?_⟩
    rw [hcc (parentKeyOf k) pc hpc (childHrefOf k)]
    apply countP_eq_one_of_unique _ _ hnd k hkmem
    · simp [hkr]
    · intro b hb hpb
      simp only [Bool.and_eq_true, decide_eq_true_eq, beq_iff_eq] at hpb
      exact id_unique_of_shallow st2.catalogs hsh k b hkmem hb hkr hpb.1.1 hpb.1.2
        (childHref_inj hpb.2)
  · intro q qc hq l hlmem hlrel hltgt
    have hpos : 0 < qc.links.countP (fun l2 => l2.rel == "child" && l2.href == l.href) := by
      rw [List.countP_pos_iff]
      exact ⟨l, hlmem, by simp [hlrel]⟩
    rw [hcc q qc hq l.href, List.countP_pos_iff] at hpos
    obtain ⟨k2, hk2mem, hk2pred⟩ := hpos
    simp only [Bool.and_eq_true, decide_eq_true_eq, beq_iff_eq] at hk2pred
    obtain ⟨⟨hk2r, hk2p⟩, hk2h⟩ := hk2pred
    have hstrip : stripCat (Link.href l) = lastCompOf k2 := by
      rw [← hk2h]
      unfold childHrefOf
      exact stripCat_childHref (lastCompOf k2)
    by_cases hqroot : q = "root"
    · have hsh2 : (splitSlash k2).length = 1 := hsh k2 hk2mem hk2r (hk2p.trans hqroot)
      have hk2eq : k2 = k := by
        rw [id_reconstruct_shallow k2 hsh2, ← hstrip, ← hltgt]
        unfold childTarget
        rw [if_pos hqroot]
      constructor
      · rw [← hk2eq, hk2p]
      · rw [← hk2eq, ← hk2h]
    · have hd2 : ¬ (splitSlash k2).length ≤ 1 := by
        intro hle
        apply hqroot
        rw [← hk2p]
        unfold parentKeyOf
        rw [if_pos hle]
      have hk2eq : k2 = k := by
        rw [id_reconstruct_deep k2 hd2, hk2p, ← hstrip, ← hltgt]
        unfold childTarget
        rw [if_neg hqroot]
      constructor
      · rw [← hk2eq, hk2p]
      · rw [← hk2eq, ← hk2h]

def c2node : Catalog :=
  (alookup c5st.catalogs "2013/03/27").getD { id := "", description := "", links := [] }

theorem c2_witness :
    alookup c5st.catalogs "2013/03/27" = some c2node
    ∧ c2node.links.filter (fun l => l.rel == "parent")
        = [{ rel := "parent", href := "../catalog.json", title := none }]
    ∧ (∃ pc, alookup c5st.catalogs (parentKeyOf "2013/03/27") = some pc
        ∧ pc.links.countP
            (fun l => l.rel == "child" && l.href == childHrefOf "2013/03/27") = 1) :=
  ⟨rfl,
   (c2_parentChild exStore [exKey] c5st rfl "2013/03/27" c2node rfl (by decide)).1,
   (c2_parentChild exStore [exKey] c5st rfl "2013/03/27" c2node rfl (by decide)).2.1⟩

end IservStac
